import Mathlib

/-!
# simple_survey: the audio recorder, packaging and configuration

A shallow embedding of `AudioRecorder` and `Recording` from `audio.go`, of the
packaging path (`SendResults` in `session.go`, `CreateZipArchive` and
`addFileToZip` in `utils.go`, `GetResponseFile` in `response.go`,
`SendZipResults` in `email.go`) and of `validateConfig` from `config.go`.

* The Go heap of `*Recording` values is a list; a pointer is an index into it.
* `ar.recordings` (a Go map) is an association list from session id to pointer.
* The finalize goroutine spawned by `StartRecording` is an entry of `waiting`
  (it is blocked on `<-recording.stopChan`) and runs as the separate step
  `finalize`.
* Calls into portaudio, the operating system and go-wav can fail; whether they
  do is an argument of the operation that makes the call (`StartExt`,
  `FinalizeExt`).
* `filepath.Dir` is the parameter `Dir`.
* Every operation also returns the sequence of effects it performs, in program
  order.
-/

namespace SimpleSurvey

/-! ## Constants -/

/-- Go: `sampleRate = 44100`. -/
def sampleRate : Nat := 44100

/-- Go: `numChannels = 1`. -/
def numChannels : Nat := 1

/-- Go: `bitsPerSample = 16`. -/
def bitsPerSample : Nat := 16

/-- Go: the conversion `uint32(n)` of a non-negative `int`. -/
def toUint32 (n : Nat) : Nat := n % 2 ^ 32

/-- Go: the conversion `uint16(n)` of a non-negative `int`. -/
def toUint16 (n : Nat) : Nat := n % 2 ^ 16

/-! ## Data model -/

/-- The state of a `*portaudio.Stream` field: `absent` is the nil pointer. -/
inductive StreamState where
  | absent
  | opened
  | started
  | stopped
  | closed
  deriving DecidableEq, Repr

/-- A stream holds its device handle from a successful open until `Close`. -/
def StreamState.isOpen : StreamState → Bool
  | .opened => true
  | .started => true
  | .stopped => true
  | _ => false

/-- Go: `type Recording struct`. The samples are `int16` values, kept as
integers; `stopCloses` counts the `close(stopChan)` statements executed on the
recording's channel (the channel is closed when the count is positive). -/
structure Recording where
  stream : StreamState
  buffer : List Int
  filePath : String
  stopCloses : Nat
  deriving DecidableEq, Repr

/-- One WAV file as go-wav produces it. `numSamples`, `numChannels`,
`sampleRate` and `bitsPerSample` are the arguments of `wav.NewWriter`;
`blockAlign` (bytes per sample frame) and `dataSize` (the size in bytes that the
header of the data chunk declares) are what `wav.NewWriter` computes from them
and writes; `samples` are the samples passed to `WriteSamples` (each
`wav.Sample` is its list of `Values`). -/
structure WavFile where
  numSamples : Nat
  numChannels : Nat
  sampleRate : Nat
  bitsPerSample : Nat
  blockAlign : Nat
  dataSize : Nat
  samples : List (List Int)
  deriving DecidableEq, Repr

/-- The number of sample frames that the header of a WAV file declares: the
declared size of the data chunk over the size of one frame. -/
def WavFile.declaredSamples (f : WavFile) : Nat := f.dataSize / f.blockAlign

/-- The errors built by `fmt.Errorf` in `audio.go`, and the one logged by
`Cleanup`. -/
inductive Err where
  | alreadyStarted (sessionID : String)
  | mkdirFailed (dir : String)
  | openFailed
  | startFailed
  | createFailed (path : String)
  | writeFailed
  | terminateFailed
  deriving DecidableEq, Repr

/-- The effects of the operations, in the order the program performs them. -/
inductive Effect where
  | lock
  | unlock
  | mapLookup (sessionID : String)
  | mapInsert (sessionID : String) (r : Nat)
  | mapDelete (sessionID : String)
  | mapKeys
  | mkdirAll (dir : String)
  | alloc (r : Nat)
  | streamOpen (r : Nat)
  | streamStart (r : Nat)
  | streamStop (r : Nat)
  | streamClose (r : Nat)
  | spawn (r : Nat)
  | chanClose (r : Nat)
  | bufLock (r : Nat)
  | bufUnlock (r : Nat)
  | fileCreate (path : String)
  | fileWrite (path : String)
  | fileClose (path : String)
  | logPrint (e : Err)
  | terminate
  deriving DecidableEq, Repr

/-- How a call ends: it returns its `error` result (`none` is Go's `nil`), or
it panics and does not return. -/
inductive Outcome where
  | returned (err : Option Err)
  | panic
  deriving DecidableEq, Repr

/-- The recorder, its recordings, its goroutines and the file system. -/
structure World where
  heap : List Recording
  recordings : List (String × Nat)
  waiting : List Nat
  dirs : List String
  files : List (String × WavFile)
  log : List Err
  panicked : Bool
  deriving DecidableEq, Repr

/-- The result of one call. -/
structure Result where
  world : World
  ret : Outcome
  effects : List Effect
  deriving DecidableEq, Repr

/-! ## The Go map `ar.recordings` -/

/-- Go: `v, exists := m[k]`. -/
def mapLookup : List (String × Nat) → String → Option Nat
  | [], _ => none
  | (k, v) :: m, id => if k = id then some v else mapLookup m id

/-- Go: `delete(m, k)`. -/
def mapDelete (m : List (String × Nat)) (id : String) : List (String × Nat) :=
  m.filter (fun kv => decide (kv.1 ≠ id))

/-- Go: `m[k] = v`. -/
def mapInsert (m : List (String × Nat)) (id : String) (r : Nat) : List (String × Nat) :=
  mapDelete m id ++ [(id, r)]

/-- Go: the keys visited by `for id := range m`. -/
def mapKeys (m : List (String × Nat)) : List String :=
  m.map Prod.fst

/-! ## The heap -/

/-- Overwrite the `stream` field of recording `r`. -/
def setStream (w : World) (r : Nat) (s : StreamState) : World :=
  match w.heap[r]? with
  | none => w
  | some rec => { w with heap := w.heap.set r { rec with stream := s } }

/-- Go: `close(recording.stopChan)`. Closing a closed channel panics, and so
does dereferencing a pointer that is not in the heap. -/
def closeChan (w : World) (r : Nat) : World :=
  match w.heap[r]? with
  | none => { w with panicked := true }
  | some rec =>
    if rec.stopCloses = 0 then
      { w with heap := w.heap.set r { rec with stopCloses := 1 } }
    else
      { w with heap := w.heap.set r { rec with stopCloses := rec.stopCloses + 1 },
               panicked := true }

/-! ## The file system -/

/-- Go: a successful `os.MkdirAll(dir, 0755)`: the directory exists
afterwards. -/
def mkdirAll (dirs : List String) (dir : String) : List String :=
  if dir ∈ dirs then dirs else dir :: dirs

/-- Go: the directories that one `os.MkdirAll` call creates on its way, one
after the other, before it returns: missing ancestors of its argument. -/
def mkdirEach (dirs : List String) (created : List String) : List String :=
  created.foldl mkdirAll dirs

/-- A file written at `path` replaces what was there. -/
def putFile (files : List (String × WavFile)) (path : String) (f : WavFile) :
    List (String × WavFile) :=
  (path, f) :: files.filter (fun kv => decide (kv.1 ≠ path))

/-- The file at `path`, if there is one. -/
def getFile : List (String × WavFile) → String → Option WavFile
  | [], _ => none
  | (k, v) :: fs, path => if k = path then some v else getFile fs path

/-! ## Outcomes of the calls into the environment -/

/-- Whether `os.MkdirAll`, `portaudio.OpenDefaultStream` and `stream.Start`
fail in one call of `StartRecording`, and the ancestor directories that
`os.MkdirAll` creates before it returns, whether it then fails or not. -/
structure StartExt where
  mkdirErr : Bool
  openErr : Bool
  startErr : Bool
  mkdirCreated : List String
  deriving DecidableEq, Repr

/-- Whether `os.Create` fails for a reason other than a missing parent
directory, and whether `WriteSamples` fails (`some k`: after `k` samples
reached the file). -/
structure FinalizeExt where
  createErr : Bool
  writeErr : Option Nat
  deriving DecidableEq, Repr

/-! ## Operations -/

/-- Go: `NewAudioRecorder`. Both failures end the process with `log.Fatalf`
(`none`); otherwise the registry is empty and `uploads` exists. -/
def NewAudioRecorder (dirs : List String) (files : List (String × WavFile))
    (initErr mkdirErr : Bool) : Option World :=
  if initErr then none
  else if mkdirErr then none
  else some
    { heap := [], recordings := [], waiting := [], dirs := mkdirAll dirs "uploads",
      files := files, log := [], panicked := false }

section
variable (Dir : String → String)

/-- Go: `(*AudioRecorder).StartRecording`. The deferred `ar.mu.Unlock()` is the
last effect on every path. -/
def StartRecording (w : World) (sessionID filePath : String) (x : StartExt) : Result :=
  match mapLookup w.recordings sessionID with
  | some _ =>
    { world := w
      ret := .returned (some (.alreadyStarted sessionID))
      effects := [.lock, .mapLookup sessionID, .unlock] }
  | none =>
    let dir := Dir filePath
    if x.mkdirErr then
      { world := { w with dirs := mkdirEach w.dirs x.mkdirCreated }
        ret := .returned (some (.mkdirFailed dir))
        effects := [.lock, .mapLookup sessionID, .mkdirAll dir, .unlock] }
    else
      let w1 := { w with dirs := mkdirAll (mkdirEach w.dirs x.mkdirCreated) dir }
      let r := w1.heap.length
      let rec0 : Recording :=
        { stream := .absent, buffer := [], filePath := filePath, stopCloses := 0 }
      if x.openErr then
        { world := { w1 with heap := w1.heap ++ [rec0] }
          ret := .returned (some .openFailed)
          effects := [.lock, .mapLookup sessionID, .mkdirAll dir, .alloc r,
                      .streamOpen r, .unlock] }
      else if x.startErr then
        { world := { w1 with heap := w1.heap ++ [{ rec0 with stream := .closed }] }
          ret := .returned (some .startFailed)
          effects := [.lock, .mapLookup sessionID, .mkdirAll dir, .alloc r,
                      .streamOpen r, .streamStart r, .streamClose r, .unlock] }
      else
        { world := { w1 with heap := w1.heap ++ [{ rec0 with stream := .started }]
                             recordings := mapInsert w1.recordings sessionID r
                             waiting := w1.waiting ++ [r] }
          ret := .returned none
          effects := [.lock, .mapLookup sessionID, .mkdirAll dir, .alloc r,
                      .streamOpen r, .streamStart r, .mapInsert sessionID r,
                      .spawn r, .unlock] }

/-- Go: `(*Recording).processAudio`. -/
def processAudio (w : World) (r : Nat) (input : List Int) : World :=
  match w.heap[r]? with
  | none => w
  | some rec => { w with heap := w.heap.set r { rec with buffer := rec.buffer ++ input } }

/-- The effects of one `processAudio` call. -/
def processAudioEffects (r : Nat) : List Effect := [.bufLock r, .bufUnlock r]

/-- Go: `(*AudioRecorder).StopRecording`. -/
def StopRecording (w : World) (sessionID : String) : Result :=
  match mapLookup w.recordings sessionID with
  | none =>
    { world := w
      ret := .returned none
      effects := [.lock, .mapLookup sessionID, .unlock] }
  | some r =>
    let w1 := { w with recordings := mapDelete w.recordings sessionID }
    let w2 := closeChan w1 r
    { world := w2
      ret := if w2.panicked then .panic else .returned none
      effects := [.lock, .mapLookup sessionID, .mapDelete sessionID, .unlock,
                  .chanClose r] }

/-- Go: the samples built by the loop of `saveWavFile`:
`samples[i] = wav.Sample{Values: []int{int(s)}}`. -/
def toSamples (buffer : List Int) : List (List Int) :=
  buffer.map (fun s => [s])

/-- The library call `wav.NewWriter(w, numSamples, numChannels, sampleRate,
bitsPerSample)` of go-wav, on arguments already of their types `uint32`,
`uint16`, `uint32`, `uint16`: `blockAlign := numChannels * bitsPerSample / 8`
in `uint16` and `dataSize := numSamples * uint32(blockAlign)` in `uint32`. -/
def wavNewWriter (numSamples numChannels sampleRate bitsPerSample : Nat) : WavFile :=
  let blockAlign := toUint16 (numChannels * bitsPerSample) / 8
  { numSamples := numSamples
    numChannels := numChannels
    sampleRate := sampleRate
    bitsPerSample := bitsPerSample
    blockAlign := blockAlign
    dataSize := toUint32 (numSamples * blockAlign)
    samples := [] }

/-- Go: the call `wav.NewWriter(file, uint32(len(recording.buffer)),
uint16(numChannels), uint32(sampleRate), uint16(bitsPerSample))` of
`saveWavFile`. -/
def wavHeader (buffer : List Int) : WavFile :=
  wavNewWriter (toUint32 buffer.length) (toUint16 numChannels) (toUint32 sampleRate)
    (toUint16 bitsPerSample)

/-- Go: `(*AudioRecorder).saveWavFile`. `os.Create` fails when the parent
directory of the path does not exist. -/
def saveWavFile (w : World) (r : Nat) (x : FinalizeExt) : Result :=
  match w.heap[r]? with
  | none => { world := { w with panicked := true }, ret := .panic, effects := [] }
  | some rec =>
    if x.createErr || decide (Dir rec.filePath ∉ w.dirs) then
      { world := w
        ret := .returned (some (.createFailed rec.filePath))
        effects := [.bufLock r, .fileCreate rec.filePath, .bufUnlock r] }
    else
      let hdr := wavHeader rec.buffer
      match x.writeErr with
      | some k =>
        { world := { w with files := putFile w.files rec.filePath
                              { hdr with samples := (toSamples rec.buffer).take k } }
          ret := .returned (some .writeFailed)
          effects := [.bufLock r, .fileCreate rec.filePath, .fileWrite rec.filePath,
                      .fileClose rec.filePath, .bufUnlock r] }
      | none =>
        { world := { w with files := putFile w.files rec.filePath
                              { hdr with samples := toSamples rec.buffer } }
          ret := .returned none
          effects := [.bufLock r, .fileCreate rec.filePath, .fileWrite rec.filePath,
                      .fileClose rec.filePath, .bufUnlock r] }

/-- Go: the goroutine of `StartRecording` for recording `r`, from the point
where `<-recording.stopChan` has returned: stop and close the stream, save the
file, log a failure. The goroutine is gone afterwards. -/
def finalize (w : World) (r : Nat) (x : FinalizeExt) : Result :=
  let w1 := setStream w r .stopped
  let w2 := setStream w1 r .closed
  let s := saveWavFile Dir w2 r x
  let w3 := { s.world with waiting := s.world.waiting.filter (fun q => decide (q ≠ r)) }
  match s.ret with
  | .panic => { world := s.world, ret := .panic, effects := [.streamStop r, .streamClose r] ++ s.effects }
  | .returned (some e) =>
    { world := { w3 with log := w3.log ++ [e] }
      ret := .returned none
      effects := [.streamStop r, .streamClose r] ++ s.effects ++ [.logPrint e] }
  | .returned none =>
    { world := w3
      ret := .returned none
      effects := [.streamStop r, .streamClose r] ++ s.effects }

/-- Go: the loop `for _, id := range sessions { ar.StopRecording(id) }` of
`Cleanup`; the result of each call is dropped, a panic ends the loop. -/
def stopAll : World → List String → Result
  | w, [] => { world := w, ret := .returned none, effects := [] }
  | w, id :: ids =>
    let s := StopRecording w id
    match s.ret with
    | .panic => s
    | .returned _ =>
      let t := stopAll s.world ids
      { world := t.world, ret := t.ret, effects := s.effects ++ t.effects }

/-- Go: `(*AudioRecorder).Cleanup`. The ids are collected under the lock, the
lock is released, each id is stopped, and portaudio is terminated (a failure is
logged). Go does not fix the order in which `range` visits a map: `sessions` is
the slice the first loop builds, a permutation of the keys of the registry. -/
def Cleanup (w : World) (sessions : List String) (termErr : Bool) : Result :=
  let t := stopAll w sessions
  match t.ret with
  | .panic => { world := t.world, ret := .panic, effects := [.lock, .mapKeys, .unlock] ++ t.effects }
  | .returned _ =>
    if termErr then
      { world := { t.world with log := t.world.log ++ [.terminateFailed] }
        ret := .returned none
        effects := [.lock, .mapKeys, .unlock] ++ t.effects ++
                   [.terminate, .logPrint .terminateFailed] }
    else
      { world := t.world
        ret := .returned none
        effects := [.lock, .mapKeys, .unlock] ++ t.effects ++ [.terminate] }

/-! ## Steps and reachable states -/

/-- Re-run of the callback for each block of a delivery, in order. -/
def deliver (w : World) (r : Nat) (blocks : List (List Int)) : World :=
  blocks.foldl (fun v b => processAudio v r b) w

/-- One step of the system: a call of `StartRecording`, `StopRecording` or
`Cleanup`, a sample callback of the driver on a stream that is not closed, or
the finalize step of a goroutine whose stop channel is closed. -/
inductive Step : World → World → Prop where
  | start (w : World) (sessionID filePath : String) (x : StartExt) :
      Step w (StartRecording Dir w sessionID filePath x).world
  | stop (w : World) (sessionID : String) :
      Step w (StopRecording w sessionID).world
  | cleanup (w : World) (sessions : List String) (termErr : Bool) :
      sessions.Perm (mapKeys w.recordings) →
      Step w (Cleanup w sessions termErr).world
  | callback (w : World) (r : Nat) (rec : Recording) (input : List Int) :
      w.heap[r]? = some rec → rec.stream.isOpen = true →
      Step w (processAudio w r input)
  | finalize (w : World) (r : Nat) (rec : Recording) (x : FinalizeExt) :
      r ∈ w.waiting → w.heap[r]? = some rec → 0 < rec.stopCloses →
      Step w (finalize Dir w r x).world

/-- Any number of steps. -/
inductive Steps : World → World → Prop where
  | refl (w : World) : Steps w w
  | tail (w v u : World) : Steps w v → Step Dir v u → Steps w u

/-- The states reached from a successful `NewAudioRecorder`. -/
inductive Reachable : World → Prop where
  | init (dirs : List String) (files : List (String × WavFile)) (w : World) :
      NewAudioRecorder dirs files false false = some w → Reachable w
  | step (w v : World) : Reachable w → Step Dir w v → Reachable v

/-! ## Predicates used by the statements -/

/-- Recording `r` is in the registry under some session id. -/
def Registered (w : World) (r : Nat) : Prop :=
  ∃ id, mapLookup w.recordings id = some r

/-- Recording `r` has been stopped and its finalize goroutine has not run
yet. -/
def AwaitingFinalize (w : World) (r : Nat) : Prop :=
  r ∈ w.waiting ∧ ∃ rec, w.heap[r]? = some rec ∧ 0 < rec.stopCloses

/-- The effects of one `StopRecording` call for each id of a list, in turn, on
the registry `m`: for a registered id the lock, the lookup, the delete, the
unlock and then the close of the stop channel. -/
def stopTrace (m : List (String × Nat)) : List String → List Effect
  | [] => []
  | id :: ids =>
    (match mapLookup m id with
     | some r => [.lock, .mapLookup id, .mapDelete id, .unlock, .chanClose r]
     | none => [.lock, .mapLookup id, .unlock]) ++ stopTrace m ids

/-- The samples of a delivery, in delivery order. -/
def concatBlocks : List (List Int) → List Int
  | [] => []
  | b :: bs => b ++ concatBlocks bs

/-- The total size of a delivery. -/
def totalLength : List (List Int) → Nat
  | [] => 0
  | b :: bs => b.length + totalLength bs

end

/-- The state of the recorder right after a successful `NewAudioRecorder` on
an empty file system. -/
def world0 : World :=
  { heap := [], recordings := [], waiting := [], dirs := ["uploads"], files := [],
    log := [], panicked := false }

/-- A `filepath.Dir` for the examples: the paths used there are under `out` or
`uploads`. -/
def exampleDir (p : String) : String :=
  if p = "out/s1.wav" then "out" else "uploads"

/-- All three environment calls of `StartRecording` succeed. -/
def startOk : StartExt :=
  { mkdirErr := false, openErr := false, startErr := false, mkdirCreated := [] }

/-- Both environment calls of `saveWavFile` succeed. -/
def finalizeOk : FinalizeExt := { createErr := false, writeErr := none }

/-- The state after `StartRecording("s1", "out/s1.wav")` succeeded in
`world0`. -/
def world1 : World :=
  (StartRecording exampleDir world0 "s1" "out/s1.wav" startOk).world

/-- The state after `StopRecording("s1")` in `world1`, before the finalize
goroutine has run. -/
def world2 : World := (StopRecording world1 "s1").world

/-- The state after a second `StartRecording("s1", "out/s1.wav")` succeeded in
`world2`. -/
def world3 : World :=
  (StartRecording exampleDir world2 "s1" "out/s1.wav" startOk).world

/-- As `world2`, on a file system in which the directory `out` no longer
exists. -/
def worldNoDir : World := { world2 with dirs := ["uploads"] }

/-- `os.MkdirAll` fails, the other calls would succeed. -/
def mkdirFails : StartExt :=
  { mkdirErr := true, openErr := false, startErr := false, mkdirCreated := [] }

/-- The run of one recording in which every environment call succeeds: start,
delivery of the blocks, stop, finalize. The recording is the one allocated by
the start, at the end of the heap. -/
def recordAndSave (Dir : String → String) (w : World) (sessionID filePath : String)
    (blocks : List (List Int)) : World :=
  let w1 := (StartRecording Dir w sessionID filePath startOk).world
  let w2 := deliver w1 w.heap.length blocks
  let w3 := (StopRecording w2 sessionID).world
  (finalize Dir w3 w.heap.length finalizeOk).world

/-! ## Runs with their deliveries -/

/-- The steps of `Steps`, with the list of the sample blocks that the callbacks
deliver on the way, each with the recording it goes to, in delivery order. -/
inductive Run (Dir : String → String) : World → List (Nat × List Int) → World → Prop where
  | refl (w : World) : Run Dir w [] w
  | start (w v : World) (ds : List (Nat × List Int)) (sessionID filePath : String)
      (x : StartExt) :
      Run Dir w ds v → Run Dir w ds (StartRecording Dir v sessionID filePath x).world
  | stop (w v : World) (ds : List (Nat × List Int)) (sessionID : String) :
      Run Dir w ds v → Run Dir w ds (StopRecording v sessionID).world
  | cleanup (w v : World) (ds : List (Nat × List Int)) (sessions : List String)
      (termErr : Bool) :
      Run Dir w ds v → sessions.Perm (mapKeys v.recordings) →
      Run Dir w ds (Cleanup v sessions termErr).world
  | callback (w v : World) (ds : List (Nat × List Int)) (r : Nat) (rec : Recording)
      (input : List Int) :
      Run Dir w ds v → v.heap[r]? = some rec → rec.stream.isOpen = true →
      Run Dir w (ds ++ [(r, input)]) (processAudio v r input)
  | finalize (w v : World) (ds : List (Nat × List Int)) (r : Nat) (rec : Recording)
      (x : FinalizeExt) :
      Run Dir w ds v → r ∈ v.waiting → v.heap[r]? = some rec → 0 < rec.stopCloses →
      Run Dir w ds (finalize Dir v r x).world

/-- The samples delivered to recording `r` in a list of deliveries, in
delivery order. -/
def deliveredTo (r : Nat) : List (Nat × List Int) → List Int
  | [] => []
  | (q, b) :: ds => if q = r then b ++ deliveredTo r ds else deliveredTo r ds

/-- Every recording of `w` is still in the heap of `v` with the same buffer
and path, and every directory of `w` still exists in `v`. -/
def KeepsData (w v : World) : Prop :=
  (∀ (r : Nat) (rec : Recording), w.heap[r]? = some rec →
    ∃ rec1 : Recording, v.heap[r]? = some rec1 ∧ rec1.buffer = rec.buffer ∧
      rec1.filePath = rec.filePath) ∧
  (∀ d, d ∈ w.dirs → d ∈ v.dirs)

/-- The state in which the callback delivered `[1]` to the recording of
`world1`, `StopRecording("s1")` returned, and the callback delivered `[2]`
before the finalize goroutine has stopped the stream. -/
def lateWorld : World :=
  processAudio (StopRecording (processAudio world1 0 [1]) "s1").world 0 [2]

/-- A `filepath.Dir` for a destination two directories deep. -/
def nestedDir (p : String) : String :=
  if p = "p1/p2/s1.wav" then "p1/p2" else "uploads"

/-- `os.MkdirAll` creates the ancestor `p1` and then fails. -/
def mkdirFailsAfterP1 : StartExt :=
  { mkdirErr := true, openErr := false, startErr := false, mkdirCreated := ["p1"] }

/-! ## The invariant of the reachable states -/

/-- What every reachable state satisfies. -/
structure Inv (w : World) : Prop where
  noPanic : w.panicked = false
  keysNodup : (mapKeys w.recordings).Nodup
  valsNodup : (w.recordings.map Prod.snd).Nodup
  regFresh : ∀ (id : String) (r : Nat), (id, r) ∈ w.recordings →
    r ∈ w.waiting ∧ ∃ rec : Recording, w.heap[r]? = some rec ∧ rec.stopCloses = 0
  closesLe : ∀ (r : Nat) (rec : Recording), w.heap[r]? = some rec → rec.stopCloses ≤ 1
  openIff : ∀ (r : Nat) (rec : Recording), w.heap[r]? = some rec → (rec.stream.isOpen = true ↔ r ∈ w.waiting)
  waitingLt : ∀ r, r ∈ w.waiting → r < w.heap.length
  waitingReg : ∀ (r : Nat) (rec : Recording), r ∈ w.waiting → w.heap[r]? = some rec → rec.stopCloses = 0 →
    ∃ id, (id, r) ∈ w.recordings

/-- Every recording of `w` is still in the heap of `v`, with at least as many
closes of its stop channel. -/
def ClosesMono (w v : World) : Prop :=
  ∀ (r : Nat) (rec : Recording), w.heap[r]? = some rec →
    ∃ rec1 : Recording, v.heap[r]? = some rec1 ∧ rec.stopCloses ≤ rec1.stopCloses

/-! ## The registry lock and the effects performed while it is held -/

/-- The file system operations (`os.MkdirAll`, file create, write and close),
the operations on a portaudio stream (open, start, stop, close), the portaudio
termination and the log output. -/
def Effect.isIO : Effect → Bool
  | .mkdirAll _ => true
  | .streamOpen _ => true
  | .streamStart _ => true
  | .streamStop _ => true
  | .streamClose _ => true
  | .fileCreate _ => true
  | .fileWrite _ => true
  | .fileClose _ => true
  | .logPrint _ => true
  | .terminate => true
  | _ => false

/-- Whether `ar.mu` is held after a sequence of effects, given whether it was
held before. -/
def heldAfter : Bool → List Effect → Bool
  | held, [] => held
  | _, .lock :: es => heldAfter true es
  | _, .unlock :: es => heldAfter false es
  | held, _ :: es => heldAfter held es

/-- Whether some operation of `Effect.isIO` occurs in a sequence of effects at
a point where `ar.mu` is held, i.e. between a `lock` and the next `unlock`. -/
def ioUnderLock : Bool → List Effect → Bool
  | _, [] => false
  | _, .lock :: es => ioUnderLock true es
  | _, .unlock :: es => ioUnderLock false es
  | held, e :: es => (held && e.isIO) || ioUnderLock held es

/-! ## Configuration (`config.go`) -/

/-- Go: `type EmailConfig struct`. -/
structure EmailConfig where
  To : String
  From : String
  Subject : String
  deriving DecidableEq, Repr

/-- Go: `TypeSingleChoice`. -/
def TypeSingleChoice : String := "single_choice"

/-- Go: `TypeMultiChoice`. -/
def TypeMultiChoice : String := "multi_choice"

/-- Go: `TypeText`. -/
def TypeText : String := "text"

/-- Go: `TypeMixed`. -/
def TypeMixed : String := "mixed"

/-- Go: `type QuestionData struct`; `QType` is the field `Type`, a
`QuestionType`, which is a string. -/
structure QuestionData where
  ID : String
  Text : String
  QType : String
  Options : List String
  AllowCustom : Bool
  Required : Bool
  deriving DecidableEq, Repr

/-- Go: `type Config struct`. -/
structure Config where
  Email : EmailConfig
  Questions : List QuestionData
  SMTPHost : String
  SMTPPort : Int
  SMTPUser : String
  SMTPPass : String
  deriving DecidableEq, Repr

/-- The errors built by `fmt.Errorf` in `validateConfig`; `n` is the one-based
number of the question. -/
inductive ConfigErr where
  | noRecipient
  | noSender
  | noQuestions
  | missingID (n : Nat)
  | missingText (n : Nat)
  | needsOptions (n : Nat) (t : String)
  | mixedNeedsOptionsAndCustom (n : Nat)
  | unknownType (n : Nat) (t : String)
  | badSMTP
  deriving DecidableEq, Repr

/-- Go: the body of the loop of `validateConfig` for the question at index
`i`; `none` means the loop goes on. -/
def validateQuestion (i : Nat) (q : QuestionData) : Option ConfigErr :=
  if q.ID = "" then some (.missingID (i + 1))
  else if q.Text = "" then some (.missingText (i + 1))
  else if q.QType = TypeSingleChoice ∨ q.QType = TypeMultiChoice then
    if q.Options.length = 0 then some (.needsOptions (i + 1) q.QType) else none
  else if q.QType = TypeMixed then
    if q.Options.length = 0 ∨ q.AllowCustom = false then
      some (.mixedNeedsOptionsAndCustom (i + 1))
    else none
  else if q.QType = TypeText then none
  else some (.unknownType (i + 1) q.QType)

/-- Go: the loop `for i, q := range config.Questions` of `validateConfig`,
from index `i` on. -/
def validateQuestions : Nat → List QuestionData → Option ConfigErr
  | _, [] => none
  | i, q :: qs =>
    match validateQuestion i q with
    | some e => some e
    | none => validateQuestions (i + 1) qs

/-- Go: `validateConfig`; `none` is `nil`. -/
def validateConfig (config : Config) : Option ConfigErr :=
  if config.Email.To = "" then some .noRecipient
  else if config.Email.From = "" then some .noSender
  else if config.Questions.length = 0 then some .noQuestions
  else
    match validateQuestions 0 config.Questions with
    | some e => some e
    | none =>
      if config.SMTPHost = "" ∨ config.SMTPPort = 0 then some .badSMTP else none

/-- The conditions on one question, in the words of the specification: a
non-empty ID, a non-empty text, and a type that is `single_choice` or
`multi_choice` with a non-empty option list, or `mixed` with a non-empty option
list and `AllowCustom`, or `text`. -/
def ValidQuestionSpec (q : QuestionData) : Prop :=
  q.ID ≠ "" ∧ q.Text ≠ "" ∧
  (((q.QType = "single_choice" ∨ q.QType = "multi_choice") ∧ q.Options ≠ []) ∨
   (q.QType = "mixed" ∧ q.Options ≠ [] ∧ q.AllowCustom = true) ∨
   q.QType = "text")

/-- The conditions on a configuration, in the words of the specification. -/
def ValidConfigSpec (c : Config) : Prop :=
  c.Email.To ≠ "" ∧ c.Email.From ≠ "" ∧ c.Questions ≠ [] ∧
  (∀ q, q ∈ c.Questions → ValidQuestionSpec q) ∧
  c.SMTPHost ≠ "" ∧ c.SMTPPort ≠ 0

/-- A configuration with one question of each type. -/
def exampleConfig : Config :=
  { Email := { To := "a@example.org", From := "b@example.org", Subject := "" }
    Questions :=
      [ { ID := "q1", Text := "one", QType := "single_choice", Options := ["x"],
          AllowCustom := false, Required := true },
        { ID := "q2", Text := "two", QType := "multi_choice", Options := ["x", "y"],
          AllowCustom := false, Required := false },
        { ID := "q3", Text := "three", QType := "mixed", Options := ["x"],
          AllowCustom := true, Required := false },
        { ID := "q4", Text := "four", QType := "text", Options := [],
          AllowCustom := false, Required := false } ]
    SMTPHost := "smtp.example.org"
    SMTPPort := 587
    SMTPUser := ""
    SMTPPass := "" }

/-! ## Packaging (`utils.go`, `response.go`, `email.go`, `session.go`) -/

/-- Go: `type Session struct`, the fields that packaging reads and the
completion flag. -/
structure Session where
  ID : String
  AudioFilePath : String
  Completed : Bool
  deriving DecidableEq, Repr

/-- The file system seen by the packaging code: the directories and the
regular files with their bytes. -/
structure Disk where
  dirs : List String
  files : List (String × List Nat)
  deriving DecidableEq, Repr

/-- The bytes of the regular file at `path`, if there is one. -/
def diskFile : List (String × List Nat) → String → Option (List Nat)
  | [], _ => none
  | (k, v) :: fs, path => if k = path then some v else diskFile fs path

/-- Go: `os.Stat(path)` does not report that the path is missing. -/
def diskExists (d : Disk) (path : String) : Bool :=
  (diskFile d.files path).isSome || decide (path ∈ d.dirs)

/-- A file written at `path` replaces what was there. -/
def putBytes (files : List (String × List Nat)) (path : String) (b : List Nat) :
    List (String × List Nat) :=
  (path, b) :: files.filter (fun kv => decide (kv.1 ≠ path))

/-- The errors built by `fmt.Errorf` in `CreateZipArchive` and
`addFileToZip`. -/
inductive ZipErr where
  | mkdirFailed (dir : String)
  | createFailed
  | statFailed (path : String)
  | isDirectory (path : String)
  | openFailed (path : String)
  | entryFailed
  | copyFailed
  deriving DecidableEq, Repr

/-- The errors built by `fmt.Errorf` in `SendZipResults`. -/
inductive MailErr where
  | archiveNotFound
  | attachFailed
  | sendFailed
  deriving DecidableEq, Repr

/-- The errors built by `fmt.Errorf` in `SendResults`, each wrapping its
cause. -/
inductive SendErr where
  | responsesNotFound
  | archive (cause : ZipErr)
  | email (cause : MailErr)
  deriving DecidableEq, Repr

/-- How a packaging call ends: it returns its `error` result (`none` is
`nil`), or it panics. -/
inductive CallOutcome (ε : Type) where
  | returned (err : Option ε)
  | panic
  deriving DecidableEq, Repr

/-- Failures of the calls of `CreateZipArchive` and `addFileToZip` that the
state of the disk does not decide: `os.MkdirAll` (with the ancestor directories
it creates before it returns), `os.Create`, and per file `os.Stat` (an error
other than not-exist), `os.Open`, `zipWriter.Create` and `io.Copy` (`some k`:
after `k` bytes). -/
structure ZipExt where
  mkdirErr : Bool
  mkdirCreated : List String
  createErr : Bool
  statErr : String → Bool
  openErr : String → Bool
  entryErr : String → Bool
  copyErr : String → Option Nat

/-- Whether `em.AttachFile` and `em.Send` fail. -/
structure MailExt where
  attachErr : Bool
  sendErr : Bool
  deriving DecidableEq, Repr

/-- The result of `SendResults`: the disk, the outcome, and the archive that
was mailed, if one was. -/
structure PackResult where
  disk : Disk
  ret : CallOutcome SendErr
  mailed : Option String
  deriving DecidableEq, Repr

section
variable (Dir Base : String → String) (Join : String → String → String)
variable (zipEncode : List (String × List Nat) → List Nat)

/-- Go: `addFileToZip`. The archive under construction is the list of its
entries (name and bytes); `filepath.Base` is the parameter `Base`. -/
def addFileToZip (d : Disk) (x : ZipExt) (entries : List (String × List Nat))
    (filePath : String) : List (String × List Nat) × Option ZipErr :=
  if x.statErr filePath || !(diskExists d filePath) then
    (entries, some (.statFailed filePath))
  else if decide (filePath ∈ d.dirs) then
    (entries, some (.isDirectory filePath))
  else
    match diskFile d.files filePath with
    | none => (entries, some (.openFailed filePath))
    | some content =>
      if x.openErr filePath then (entries, some (.openFailed filePath))
      else if x.entryErr filePath then (entries, some .entryFailed)
      else
        match x.copyErr filePath with
        | some k => (entries ++ [(Base filePath, content.take k)], some .copyFailed)
        | none => (entries ++ [(Base filePath, content)], none)

/-- Go: the loop `for _, filePath := range filePaths` of `CreateZipArchive`,
which returns at the first error. -/
def addFiles (d : Disk) (x : ZipExt) :
    List (String × List Nat) → List String → List (String × List Nat) × Option ZipErr
  | entries, [] => (entries, none)
  | entries, f :: fs =>
    match addFileToZip Base d x entries f with
    | (es, some e) => (es, some e)
    | (es, none) => addFiles d x es fs

/-- Go: `CreateZipArchive`. The zip encoding of the entries is the parameter
`zipEncode`; the archive file is empty while the loop runs and holds the
entries added so far once the deferred `Close` calls have run, on the error
path too. -/
def CreateZipArchive (d : Disk) (x : ZipExt) (zipPath : String)
    (filePaths : List String) : Disk × Option ZipErr :=
  let dir := Dir zipPath
  if x.mkdirErr then
    ({ d with dirs := mkdirEach d.dirs x.mkdirCreated }, some (.mkdirFailed dir))
  else
    let d1 : Disk := { d with dirs := mkdirAll (mkdirEach d.dirs x.mkdirCreated) dir }
    if x.createErr then (d1, some .createFailed)
    else
      let d2 : Disk := { d1 with files := putBytes d1.files zipPath [] }
      let r := addFiles Base d2 x [] filePaths
      ({ d2 with files := putBytes d2.files zipPath (zipEncode r.1) }, r.2)

/-- Go: `(*ResponseHandler).GetResponseFile`; `none` is the not-found error.
Only `os.IsNotExist(err)` is tested: when `os.Stat` fails with another error
the path is returned. `filepath.Join` is the parameter `Join`. -/
def GetResponseFile (responsesDir : String) (d : Disk) (x : ZipExt)
    (sessionID : String) : Option String :=
  let filePath := Join responsesDir ("responses_" ++ sessionID ++ ".csv")
  if !(x.statErr filePath) && !(diskExists d filePath) then none else some filePath

/-- Go: `(*Emailer).SendZipResults`. The slice `sessionID[:8]` panics on an id
of fewer than 8 bytes. -/
def SendZipResults (d : Disk) (x : MailExt) (zipPath sessionID : String) :
    CallOutcome MailErr :=
  if !(diskExists d zipPath) then .returned (some .archiveNotFound)
  else if sessionID.utf8ByteSize < 8 then .panic
  else if x.attachErr then .returned (some .attachFailed)
  else if x.sendErr then .returned (some .sendFailed)
  else .returned none

/-- Go: `(*SessionManager).SendResults`. -/
def SendResults (responsesDir : String) (d : Disk) (zx : ZipExt) (mx : MailExt)
    (session : Session) : PackResult :=
  match GetResponseFile Join responsesDir d zx session.ID with
  | none => { disk := d, ret := .returned (some .responsesNotFound), mailed := none }
  | some csvPath =>
    let zipPath := Join "uploads" ("results_" ++ session.ID ++ ".zip")
    let files :=
      if session.AudioFilePath ≠ "" then [csvPath, session.AudioFilePath] else [csvPath]
    let z := CreateZipArchive Dir Base zipEncode d zx zipPath files
    match z.2 with
    | some e => { disk := z.1, ret := .returned (some (.archive e)), mailed := none }
    | none =>
      match SendZipResults z.1 mx zipPath session.ID with
      | .panic => { disk := z.1, ret := .panic, mailed := none }
      | .returned (some e) =>
        { disk := z.1, ret := .returned (some (.email e)), mailed := none }
      | .returned none => { disk := z.1, ret := .returned none, mailed := some zipPath }

end

/-- No call of the packaging code fails for a reason outside the disk. -/
def zipOk : ZipExt :=
  { mkdirErr := false, mkdirCreated := [], createErr := false, statErr := fun _ => false,
    openErr := fun _ => false, entryErr := fun _ => false, copyErr := fun _ => none }

/-- Attaching and sending succeed. -/
def mailOk : MailExt := { attachErr := false, sendErr := false }

/-- A `filepath.Join` for the examples. -/
def exampleJoin (a b : String) : String := a ++ "/" ++ b

/-- A `filepath.Base` for the examples. -/
def exampleBase (p : String) : String :=
  if p = "uploads/responses/responses_3f2b8c1e.csv" then "responses_3f2b8c1e.csv"
  else if p = "uploads/audio_3f2b8c1e.wav" then "audio_3f2b8c1e.wav"
  else p

/-- A zip encoding for the examples: the bytes of the entries, in order. -/
def exampleZip (entries : List (String × List Nat)) : List Nat :=
  entries.foldr (fun e acc => e.2 ++ acc) []

/-- A disk with the answers of session `3f2b8c1e` and no audio file. -/
def diskNoAudio : Disk :=
  { dirs := ["uploads", "uploads/responses"]
    files := [("uploads/responses/responses_3f2b8c1e.csv", [113, 49, 44, 97])] }

/-- The session `3f2b8c1e`, whose recording was started (the path is set) and
whose audio file is not on `diskNoAudio`. -/
def sessionNoAudio : Session :=
  { ID := "3f2b8c1e", AudioFilePath := "uploads/audio_3f2b8c1e.wav", Completed := false }

/-! ## Lemmas: the map -/

theorem mapLookup_mem {m : List (String × Nat)} {id : String} {r : Nat}
    (h : mapLookup m id = some r) : (id, r) ∈ m := by
  induction m with
  | nil => simp [mapLookup] at h
  | cons kv m ih =>
    obtain ⟨k, v⟩ := kv
    by_cases hk : k = id
    · simp [mapLookup, hk] at h
      simp [hk, h]
    · simp [mapLookup, hk] at h
      exact List.mem_cons_of_mem _ (ih h)

theorem mapLookup_eq_none {m : List (String × Nat)} {id : String} :
    mapLookup m id = none ↔ id ∉ mapKeys m := by
  induction m with
  | nil => simp [mapLookup, mapKeys]
  | cons kv m ih =>
    obtain ⟨k, v⟩ := kv
    by_cases hk : k = id
    · simp [mapLookup, mapKeys, hk]
    · have hk2 : ¬ id = k := fun e => hk e.symm
      simp [mapLookup, hk, hk2, ih, mapKeys]

theorem mapLookup_of_mem {m : List (String × Nat)} {id : String} {r : Nat}
    (hn : (mapKeys m).Nodup) (h : (id, r) ∈ m) : mapLookup m id = some r := by
  induction m with
  | nil => simp at h
  | cons kv m ih =>
    obtain ⟨k, v⟩ := kv
    simp only [mapKeys, List.map_cons, List.nodup_cons] at hn
    rcases List.mem_cons.mp h with h | h
    · simp only [Prod.mk.injEq] at h
      simp [mapLookup, h.1, h.2]
    · have hk : k ≠ id := by
        intro e
        apply hn.1
        rw [e]
        exact List.mem_map_of_mem Prod.fst h
      simp only [mapLookup, hk, if_false]
      exact ih hn.2 h

theorem mem_mapDelete {m : List (String × Nat)} {id k : String} {v : Nat} :
    (k, v) ∈ mapDelete m id ↔ (k, v) ∈ m ∧ k ≠ id := by
  simp [mapDelete, List.mem_filter]

theorem mapDelete_of_lookup_none {m : List (String × Nat)} {id : String}
    (h : mapLookup m id = none) : mapDelete m id = m := by
  rw [mapLookup_eq_none] at h
  unfold mapDelete
  rw [List.filter_eq_self]
  intro kv hkv
  simp only [ne_eq, decide_not, Bool.not_eq_eq_eq_not, Bool.not_true, decide_eq_false_iff_not]
  intro e
  apply h
  rw [← e]
  exact List.mem_map_of_mem Prod.fst hkv

theorem mapLookup_mapDelete_self (m : List (String × Nat)) (id : String) :
    mapLookup (mapDelete m id) id = none := by
  rw [mapLookup_eq_none]
  intro h
  obtain ⟨kv, hkv, e⟩ := List.mem_map.mp h
  obtain ⟨k, v⟩ := kv
  have := (mem_mapDelete.mp hkv).2
  exact this e

theorem keys_mapDelete_nodup {m : List (String × Nat)} (id : String)
    (h : (mapKeys m).Nodup) : (mapKeys (mapDelete m id)).Nodup :=
  List.Nodup.sublist (List.Sublist.map Prod.fst (List.filter_sublist m)) h

theorem vals_mapDelete_nodup {m : List (String × Nat)} (id : String)
    (h : (m.map Prod.snd).Nodup) : ((mapDelete m id).map Prod.snd).Nodup :=
  List.Nodup.sublist (List.Sublist.map Prod.snd (List.filter_sublist m)) h

/-! ## Lemmas: the heap -/

theorem heap_lt {l : List Recording} {r : Nat} {rec : Recording}
    (h : l[r]? = some rec) : r < l.length := by
  obtain ⟨h1, _⟩ := List.getElem?_eq_some.mp h
  exact h1

theorem heap_snoc_cases {l : List Recording} {x rec : Recording} {r : Nat}
    (h : (l ++ [x])[r]? = some rec) :
    l[r]? = some rec ∨ (r = l.length ∧ rec = x) := by
  rw [List.getElem?_append] at h
  split at h
  · exact Or.inl h
  · rename_i hlt
    right
    have hr : r - l.length = 0 := by
      by_contra hne
      have : [x][r - l.length]? = none := by
        apply List.getElem?_eq_none
        simp
        omega
      rw [this] at h
      simp at h
    rw [hr] at h
    simp at h
    exact ⟨by omega, h.symm⟩

theorem heap_snoc_old {l : List Recording} {x rec : Recording} {r : Nat}
    (h : l[r]? = some rec) : (l ++ [x])[r]? = some rec := by
  rw [List.getElem?_append_left (heap_lt h)]
  exact h

theorem heap_set_cases {l : List Recording} {x rec : Recording} {r q : Nat}
    (h : (l.set r x)[q]? = some rec) :
    (q = r ∧ rec = x) ∨ (q ≠ r ∧ l[q]? = some rec) := by
  rw [List.getElem?_set] at h
  split at h
  · rename_i e
    split at h
    · simp at h
      exact Or.inl ⟨e.symm, h.symm⟩
    · simp at h
  · rename_i e
    exact Or.inr ⟨fun e2 => e e2.symm, h⟩

theorem heap_set_self {l : List Recording} {x rec : Recording} {r : Nat}
    (h : l[r]? = some rec) : (l.set r x)[r]? = some x := by
  rw [List.getElem?_set]
  simp [heap_lt h]

theorem heap_set_other {l : List Recording} {x : Recording} {r q : Nat}
    (h : q ≠ r) : (l.set r x)[q]? = l[q]? := by
  exact List.getElem?_set_ne (fun e => h e.symm)

/-! ## Lemmas: the invariant is kept by every operation -/

theorem inv_alloc {w : World} (h : Inv w) (x : Recording) (d : List String)
    (hc : x.stopCloses = 0) (ho : x.stream.isOpen = false) :
    Inv { w with heap := w.heap ++ [x], dirs := d } where
  noPanic := h.noPanic
  keysNodup := h.keysNodup
  valsNodup := h.valsNodup
  regFresh := by
    intro id r hm
    obtain ⟨h1, rec, h2, h3⟩ := h.regFresh id r hm
    exact ⟨h1, rec, heap_snoc_old h2, h3⟩
  closesLe := by
    intro r rec hr
    rcases heap_snoc_cases hr with h1 | ⟨_, h1⟩
    · exact h.closesLe r rec h1
    · rw [h1, hc]
      exact Nat.zero_le 1
  openIff := by
    intro r rec hr
    rcases heap_snoc_cases hr with h1 | ⟨h1, h2⟩
    · exact h.openIff r rec h1
    · rw [h2, ho]
      constructor
      · intro hf
        exact absurd hf (by decide)
      · intro hw
        have := h.waitingLt r hw
        omega
  waitingLt := by
    intro r hr
    have := h.waitingLt r hr
    simp only [List.length_append, List.length_singleton]
    omega
  waitingReg := by
    intro r rec hr hh hz
    rcases heap_snoc_cases hh with h1 | ⟨h1, _⟩
    · exact h.waitingReg r rec hr h1 hz
    · have := h.waitingLt r hr
      omega

theorem inv_register {w : World} (h : Inv w) (x : Recording) (d : List String)
    (sid : String) (hc : x.stopCloses = 0) (ho : x.stream.isOpen = true)
    (hn : mapLookup w.recordings sid = none) :
    Inv { w with heap := w.heap ++ [x]
                 recordings := mapInsert w.recordings sid w.heap.length
                 waiting := w.waiting ++ [w.heap.length]
                 dirs := d } := by
  have hm : mapInsert w.recordings sid w.heap.length
      = w.recordings ++ [(sid, w.heap.length)] := by
    unfold mapInsert
    rw [mapDelete_of_lookup_none hn]
  rw [hm]
  have hkey : sid ∉ mapKeys w.recordings := mapLookup_eq_none.mp hn
  have hval : w.heap.length ∉ w.recordings.map Prod.snd := by
    intro hv
    obtain ⟨kv, hkv, e⟩ := List.mem_map.mp hv
    obtain ⟨k, v⟩ := kv
    obtain ⟨_, rec, h2, _⟩ := h.regFresh k v hkv
    have := heap_lt h2
    simp only at e
    omega
  constructor
  · exact h.noPanic
  · have := h.keysNodup
    simp only [mapKeys, List.map_append, List.map_cons, List.map_nil] at *
    rw [List.nodup_append]
    refine ⟨this, List.nodup_singleton _, ?_⟩
    intro a ha hb
    rw [List.mem_singleton] at hb
    exact hkey (hb ▸ ha)
  · have := h.valsNodup
    simp only [List.map_append, List.map_cons, List.map_nil]
    rw [List.nodup_append]
    refine ⟨this, List.nodup_singleton _, ?_⟩
    intro a ha hb
    rw [List.mem_singleton] at hb
    exact hval (hb ▸ ha)
  · intro id r hmem
    simp only at hmem ⊢
    rcases List.mem_append.mp hmem with h1 | h1
    · obtain ⟨h2, rec, h3, h4⟩ := h.regFresh id r h1
      exact ⟨List.mem_append_left _ h2, rec, heap_snoc_old h3, h4⟩
    · simp only [List.mem_singleton, Prod.mk.injEq] at h1
      refine ⟨?_, x, ?_, hc⟩
      · rw [h1.2]
        exact List.mem_append_right _ (List.mem_singleton_self _)
      · rw [h1.2]
        exact List.getElem?_concat_length _ _
  · intro r rec hr
    rcases heap_snoc_cases hr with h1 | ⟨_, h1⟩
    · exact h.closesLe r rec h1
    · rw [h1, hc]
      exact Nat.zero_le 1
  · intro r rec hr
    simp only at hr ⊢
    rcases heap_snoc_cases hr with h1 | ⟨h1, h2⟩
    · rw [h.openIff r rec h1]
      have := heap_lt h1
      constructor
      · intro hw
        exact List.mem_append_left _ hw
      · intro hw
        rcases List.mem_append.mp hw with h3 | h3
        · exact h3
        · rw [List.mem_singleton] at h3
          omega
    · rw [h2, ho, h1]
      simp
  · intro r hr
    simp only at hr ⊢
    rw [List.length_append, List.length_singleton]
    rcases List.mem_append.mp hr with h3 | h3
    · have := h.waitingLt r h3
      omega
    · rw [List.mem_singleton] at h3
      omega
  · intro r rec hr hh hz
    simp only at hr hh ⊢
    rcases heap_snoc_cases hh with h1 | ⟨h1, _⟩
    · have hlt := heap_lt h1
      rcases List.mem_append.mp hr with h3 | h3
      · obtain ⟨id, hid⟩ := h.waitingReg r rec h3 h1 hz
        exact ⟨id, List.mem_append_left _ hid⟩
      · rw [List.mem_singleton] at h3
        omega
    · exact ⟨sid, by rw [h1]; exact List.mem_append_right _ (List.mem_singleton_self _)⟩

theorem inv_dirs {w : World} (h : Inv w) (d : List String) : Inv { w with dirs := d } := by
  constructor
  · exact h.noPanic
  · exact h.keysNodup
  · exact h.valsNodup
  · exact h.regFresh
  · exact h.closesLe
  · exact h.openIff
  · exact h.waitingLt
  · exact h.waitingReg

theorem inv_start (Dir : String → String) {w : World} (h : Inv w)
    (sid path : String) (x : StartExt) :
    Inv (StartRecording Dir w sid path x).world := by
  unfold StartRecording
  split
  · exact h
  · rename_i hn
    by_cases h1 : x.mkdirErr = true
    · simp only [h1, if_true]
      exact inv_dirs h _
    · by_cases h2 : x.openErr = true
      · simp only [h1, h2, if_true]
        exact inv_alloc h _ _ rfl rfl
      · by_cases h3 : x.startErr = true
        · simp only [h1, h2, h3, if_true]
          exact inv_alloc h _ _ rfl rfl
        · simp only [h1, h2, h3]
          exact inv_register h _ _ sid rfl rfl hn

theorem vals_inj {m : List (String × Nat)} (hn : (m.map Prod.snd).Nodup)
    {a b : String} {v : Nat} (ha : (a, v) ∈ m) (hb : (b, v) ∈ m) : a = b := by
  induction m with
  | nil => simp at ha
  | cons kv m ih =>
    simp only [List.map_cons, List.nodup_cons] at hn
    rcases List.mem_cons.mp ha with h1 | h1
    · rcases List.mem_cons.mp hb with h2 | h2
      · rw [← h2] at h1
        simp only [Prod.mk.injEq] at h1
        exact h1.1
      · exfalso
        apply hn.1
        rw [← h1]
        exact List.mem_map.mpr ⟨(b, v), h2, rfl⟩
    · rcases List.mem_cons.mp hb with h2 | h2
      · exfalso
        apply hn.1
        rw [← h2]
        exact List.mem_map.mpr ⟨(a, v), h1, rfl⟩
      · exact ih hn.2 h1 h2

theorem stop_world_of_lookup {w : World} {sid : String} {r : Nat} {rec : Recording}
    (hl : mapLookup w.recordings sid = some r) (hh : w.heap[r]? = some rec)
    (hz : rec.stopCloses = 0) :
    (StopRecording w sid).world =
      { w with recordings := mapDelete w.recordings sid
               heap := w.heap.set r { rec with stopCloses := 1 } } := by
  simp only [StopRecording, hl, closeChan, hh, hz, if_true]

theorem inv_stop {w : World} (h : Inv w) (sid : String) :
    Inv (StopRecording w sid).world := by
  cases hl : mapLookup w.recordings sid with
  | none => simp only [StopRecording, hl]; exact h
  | some r =>
    have hmem := mapLookup_mem hl
    obtain ⟨hw, rec, hh, hz⟩ := h.regFresh sid r hmem
    rw [stop_world_of_lookup hl hh hz]
    constructor
    · exact h.noPanic
    · exact keys_mapDelete_nodup sid h.keysNodup
    · exact vals_mapDelete_nodup sid h.valsNodup
    · intro id q hq
      simp only at hq ⊢
      obtain ⟨hq1, hq2⟩ := mem_mapDelete.mp hq
      obtain ⟨h1, rec1, h2, h3⟩ := h.regFresh id q hq1
      have hne : q ≠ r := by
        intro e
        rw [e] at hq1
        exact hq2 (vals_inj h.valsNodup hq1 hmem)
      exact ⟨h1, rec1, by rw [heap_set_other hne]; exact h2, h3⟩
    · intro q rec1 hq
      rcases heap_set_cases hq with ⟨_, h1⟩ | ⟨_, h1⟩
      · rw [h1]
      · exact h.closesLe q rec1 h1
    · intro q rec1 hq
      simp only at hq ⊢
      rcases heap_set_cases hq with ⟨h0, h1⟩ | ⟨_, h1⟩
      · rw [h1, h0]
        exact h.openIff r rec hh
      · exact h.openIff q rec1 h1
    · intro q hq
      simp only [List.length_set]
      exact h.waitingLt q hq
    · intro q rec1 hq hq2 hq3
      simp only at hq hq2 ⊢
      rcases heap_set_cases hq2 with ⟨_, h1⟩ | ⟨h0, h1⟩
      · rw [h1] at hq3
        simp at hq3
      · obtain ⟨id, hid⟩ := h.waitingReg q rec1 hq h1 hq3
        refine ⟨id, mem_mapDelete.mpr ⟨hid, ?_⟩⟩
        intro e
        rw [e] at hid
        have := mapLookup_of_mem h.keysNodup hid
        rw [hl] at this
        simp only [Option.some.injEq] at this
        exact h0 this.symm

theorem stop_ret_of_inv {w : World} (h : Inv w) (sid : String) :
    (StopRecording w sid).ret = .returned none := by
  have hp := (inv_stop h sid).noPanic
  cases hl : mapLookup w.recordings sid with
  | none => simp only [StopRecording, hl]
  | some r =>
    simp only [StopRecording, hl] at hp ⊢
    simp only [hp]
    rfl

theorem inv_update {w : World} (h : Inv w) {r : Nat} {rec x : Recording}
    (hh : w.heap[r]? = some rec) (hs : x.stream = rec.stream)
    (hc : x.stopCloses = rec.stopCloses) :
    Inv { w with heap := w.heap.set r x } := by
  constructor
  · exact h.noPanic
  · exact h.keysNodup
  · exact h.valsNodup
  · intro id q hq
    obtain ⟨h1, rec1, h2, h3⟩ := h.regFresh id q hq
    by_cases e : q = r
    · refine ⟨h1, x, ?_, ?_⟩
      · rw [e]
        exact heap_set_self hh
      · rw [e, hh] at h2
        simp only [Option.some.injEq] at h2
        rw [hc, h2]
        exact h3
    · exact ⟨h1, rec1, by rw [heap_set_other e]; exact h2, h3⟩
  · intro q rec1 hq
    rcases heap_set_cases hq with ⟨_, h1⟩ | ⟨_, h1⟩
    · rw [h1, hc]
      exact h.closesLe r rec hh
    · exact h.closesLe q rec1 h1
  · intro q rec1 hq
    simp only at hq ⊢
    rcases heap_set_cases hq with ⟨h0, h1⟩ | ⟨_, h1⟩
    · rw [h1, h0, hs]
      exact h.openIff r rec hh
    · exact h.openIff q rec1 h1
  · intro q hq
    simp only [List.length_set]
    exact h.waitingLt q hq
  · intro q rec1 hq hq2 hq3
    simp only at hq hq2 ⊢
    rcases heap_set_cases hq2 with ⟨h0, h1⟩ | ⟨_, h1⟩
    · rw [h1, hc] at hq3
      rw [h0]
      rw [h0] at hq
      exact h.waitingReg r rec hq hh hq3
    · exact h.waitingReg q rec1 hq h1 hq3

theorem inv_callback {w : World} (h : Inv w) (r : Nat) (input : List Int) :
    Inv (processAudio w r input) := by
  unfold processAudio
  cases hh : w.heap[r]? with
  | none => exact h
  | some rec => exact inv_update h hh rfl rfl

theorem setStream_eq {w : World} {r : Nat} {rec : Recording} (s : StreamState)
    (hh : w.heap[r]? = some rec) :
    setStream w r s = { w with heap := w.heap.set r { rec with stream := s } } := by
  simp only [setStream, hh]

theorem saveWavFile_world (Dir : String → String) {w : World} {r : Nat}
    {rec : Recording} (x : FinalizeExt) (hh : w.heap[r]? = some rec) :
    ∃ f e, (saveWavFile Dir w r x).world = { w with files := f } ∧
      (saveWavFile Dir w r x).ret = .returned e := by
  unfold saveWavFile
  simp only [hh]
  split
  · exact ⟨w.files, _, rfl, rfl⟩
  · split
    · exact ⟨_, _, rfl, rfl⟩
    · exact ⟨_, _, rfl, rfl⟩

theorem finalize_world (Dir : String → String) {w : World} {r : Nat}
    {rec : Recording} (x : FinalizeExt) (hh : w.heap[r]? = some rec) :
    ∃ f l, (finalize Dir w r x).world =
      { w with heap := w.heap.set r { rec with stream := .closed }
               waiting := w.waiting.filter (fun q => decide (q ≠ r))
               files := f
               log := l } ∧
      (finalize Dir w r x).ret = .returned none := by
  have h1 := setStream_eq .stopped hh
  have hh1 : (setStream w r .stopped).heap[r]? = some { rec with stream := .stopped } := by
    rw [h1]
    exact heap_set_self hh
  have h2 := setStream_eq .closed hh1
  have hh2 : (setStream (setStream w r .stopped) r .closed).heap[r]?
      = some { rec with stream := .closed } := by
    rw [h2]
    exact heap_set_self hh1
  obtain ⟨f, e, hw, hr⟩ := saveWavFile_world Dir x hh2
  have hheap : (setStream (setStream w r .stopped) r .closed).heap
      = w.heap.set r { rec with stream := .closed } := by
    rw [h2, h1]
    simp only [List.set_set]
  unfold finalize
  simp only [hr, hw]
  cases e with
  | none =>
    refine ⟨f, w.log, ?_, rfl⟩
    simp only [hheap]
    rw [h2, h1]
  | some e =>
    refine ⟨f, w.log ++ [e], ?_, rfl⟩
    simp only [hheap]
    rw [h2, h1]

theorem inv_close {w : World} (h : Inv w) {r : Nat} {rec : Recording}
    (hh : w.heap[r]? = some rec) (hc : 0 < rec.stopCloses)
    (f : List (String × WavFile)) (l : List Err) :
    Inv { w with heap := w.heap.set r { rec with stream := .closed }
                 waiting := w.waiting.filter (fun q => decide (q ≠ r))
                 files := f
                 log := l } := by
  have hnot : ∀ id, (id, r) ∉ w.recordings := by
    intro id hid
    obtain ⟨_, rec1, h2, h3⟩ := h.regFresh id r hid
    rw [hh] at h2
    simp only [Option.some.injEq] at h2
    rw [← h2] at h3
    omega
  constructor
  · exact h.noPanic
  · exact h.keysNodup
  · exact h.valsNodup
  · intro id q hq
    simp only at hq ⊢
    obtain ⟨h1, rec1, h2, h3⟩ := h.regFresh id q hq
    have hne : q ≠ r := fun e => hnot id (e ▸ hq)
    refine ⟨?_, rec1, by rw [heap_set_other hne]; exact h2, h3⟩
    rw [List.mem_filter]
    exact ⟨h1, by simpa using hne⟩
  · intro q rec1 hq
    rcases heap_set_cases hq with ⟨_, h1⟩ | ⟨_, h1⟩
    · rw [h1]
      exact h.closesLe r rec hh
    · exact h.closesLe q rec1 h1
  · intro q rec1 hq
    simp only at hq ⊢
    rcases heap_set_cases hq with ⟨h0, h1⟩ | ⟨h0, h1⟩
    · rw [h1, h0]
      simp [StreamState.isOpen]
    · rw [h.openIff q rec1 h1, List.mem_filter]
      simp [h0]
  · intro q hq
    simp only at hq ⊢
    rw [List.length_set]
    exact h.waitingLt q (List.mem_filter.mp hq).1
  · intro q rec1 hq hq2 hq3
    simp only at hq hq2 ⊢
    obtain ⟨hq1, hqr⟩ := List.mem_filter.mp hq
    have hne : q ≠ r := by simpa using hqr
    rcases heap_set_cases hq2 with ⟨h0, _⟩ | ⟨_, h1⟩
    · exact absurd h0 hne
    · exact h.waitingReg q rec1 hq1 h1 hq3

theorem inv_finalize (Dir : String → String) {w : World} (h : Inv w) {r : Nat}
    {rec : Recording} (x : FinalizeExt) (hh : w.heap[r]? = some rec)
    (hc : 0 < rec.stopCloses) : Inv (finalize Dir w r x).world := by
  obtain ⟨f, l, hw, _⟩ := finalize_world Dir x hh
  rw [hw]
  exact inv_close h hh hc f l

theorem inv_stopAll {w : World} (h : Inv w) (ids : List String) :
    Inv (stopAll w ids).world ∧ (stopAll w ids).ret = .returned none := by
  induction ids generalizing w with
  | nil => exact ⟨h, rfl⟩
  | cons id ids ih =>
    have h1 := inv_stop h id
    have h2 := stop_ret_of_inv h id
    simp only [stopAll, h2]
    exact ih h1

theorem inv_log {w : World} (h : Inv w) (l : List Err) : Inv { w with log := l } := by
  constructor
  · exact h.noPanic
  · exact h.keysNodup
  · exact h.valsNodup
  · exact h.regFresh
  · exact h.closesLe
  · exact h.openIff
  · exact h.waitingLt
  · exact h.waitingReg

theorem cleanup_world (w : World) (ids : List String) (termErr : Bool)
    (hr : (stopAll w ids).ret = .returned none) :
    ∃ l, (Cleanup w ids termErr).world = { (stopAll w ids).world with log := l } ∧
      (Cleanup w ids termErr).ret = .returned none := by
  unfold Cleanup
  simp only [hr]
  cases termErr with
  | true => exact ⟨_, rfl, rfl⟩
  | false => exact ⟨_, rfl, rfl⟩

theorem inv_cleanup {w : World} (h : Inv w) (ids : List String) (termErr : Bool) :
    Inv (Cleanup w ids termErr).world := by
  obtain ⟨h1, h2⟩ := inv_stopAll h ids
  obtain ⟨l, hw, _⟩ := cleanup_world w ids termErr h2
  rw [hw]
  exact inv_log h1 l

theorem inv_step (Dir : String → String) {w v : World} (h : Inv w)
    (hs : Step Dir w v) : Inv v := by
  cases hs with
  | start sid path x => exact inv_start Dir h sid path x
  | stop sid => exact inv_stop h sid
  | cleanup ids t _ => exact inv_cleanup h ids t
  | callback r rec input _ _ => exact inv_callback h r input
  | finalize r rec x _ hh hc => exact inv_finalize Dir h x hh hc

theorem inv_init {dirs : List String} {files : List (String × WavFile)} {w : World}
    (h : NewAudioRecorder dirs files false false = some w) : Inv w := by
  simp only [NewAudioRecorder, Bool.false_eq_true, if_false, Option.some.injEq] at h
  subst h
  constructor <;> simp [mapKeys]

theorem inv_reachable (Dir : String → String) {w : World}
    (h : Reachable Dir w) : Inv w := by
  induction h with
  | init dirs files w h0 => exact inv_init h0
  | step w v _ hs ih => exact inv_step Dir ih hs

theorem inv_steps (Dir : String → String) {w v : World} (h : Inv w)
    (hs : Steps Dir w v) : Inv v := by
  induction hs with
  | refl => exact h
  | tail v u _ hs ih => exact inv_step Dir ih hs

theorem reachable_steps (Dir : String → String) {w v : World}
    (h : Reachable Dir w) (hs : Steps Dir w v) : Reachable Dir v := by
  induction hs with
  | refl => exact h
  | tail v u _ hs ih => exact Reachable.step v u ih hs

/-! ## Lemmas: a stop channel is never reopened -/

theorem closesMono_refl (w : World) : ClosesMono w w :=
  fun _ rec h => ⟨rec, h, Nat.le_refl _⟩

theorem closesMono_trans {w v u : World} (h1 : ClosesMono w v) (h2 : ClosesMono v u) :
    ClosesMono w u := by
  intro r rec h
  obtain ⟨rec1, h3, h4⟩ := h1 r rec h
  obtain ⟨rec2, h5, h6⟩ := h2 r rec1 h3
  exact ⟨rec2, h5, Nat.le_trans h4 h6⟩

theorem closesMono_of_heap_eq {w v : World} (h : v.heap = w.heap) : ClosesMono w v := by
  intro r rec hr
  exact ⟨rec, by rw [h]; exact hr, Nat.le_refl _⟩

theorem closesMono_snoc {w v : World} (x : Recording) (h : v.heap = w.heap ++ [x]) :
    ClosesMono w v := by
  intro r rec hr
  exact ⟨rec, by rw [h]; exact heap_snoc_old hr, Nat.le_refl _⟩

theorem closesMono_set {w v : World} {q : Nat} {old : Recording} (x : Recording)
    (hq : w.heap[q]? = some old) (hx : old.stopCloses ≤ x.stopCloses)
    (h : v.heap = w.heap.set q x) : ClosesMono w v := by
  intro r rec hr
  by_cases e : r = q
  · refine ⟨x, ?_, ?_⟩
    · rw [h, e]
      exact heap_set_self hq
    · rw [e, hq] at hr
      simp only [Option.some.injEq] at hr
      rw [← hr]
      exact hx
  · exact ⟨rec, by rw [h, heap_set_other e]; exact hr, Nat.le_refl _⟩

theorem closesMono_start (Dir : String → String) (w : World) (sid path : String)
    (x : StartExt) : ClosesMono w (StartRecording Dir w sid path x).world := by
  unfold StartRecording
  split
  · exact closesMono_refl w
  · by_cases h1 : x.mkdirErr = true
    · simp only [h1, if_true]
      exact closesMono_refl w
    · by_cases h2 : x.openErr = true
      · simp only [h1, h2, if_true]
        exact closesMono_snoc _ rfl
      · by_cases h3 : x.startErr = true
        · simp only [h1, h2, h3, if_true]
          exact closesMono_snoc _ rfl
        · simp only [h1, h2, h3]
          exact closesMono_snoc _ rfl

theorem closesMono_closeChan (w : World) (r : Nat) : ClosesMono w (closeChan w r) := by
  unfold closeChan
  cases hh : w.heap[r]? with
  | none => exact closesMono_of_heap_eq rfl
  | some rec =>
    simp only
    split
    · exact closesMono_set _ hh (by omega) rfl
    · exact closesMono_set _ hh (Nat.le_succ _) rfl

theorem closesMono_stop (w : World) (sid : String) :
    ClosesMono w (StopRecording w sid).world := by
  unfold StopRecording
  cases hl : mapLookup w.recordings sid with
  | none => exact closesMono_refl w
  | some r =>
    have h1 : ClosesMono w { w with recordings := mapDelete w.recordings sid } :=
      closesMono_of_heap_eq rfl
    exact closesMono_trans h1 (closesMono_closeChan _ r)

theorem closesMono_stopAll (w : World) (ids : List String) :
    ClosesMono w (stopAll w ids).world := by
  induction ids generalizing w with
  | nil => exact closesMono_refl w
  | cons id ids ih =>
    have h1 := closesMono_stop w id
    unfold stopAll
    simp only
    split
    · exact h1
    · exact closesMono_trans h1 (ih _)

theorem cleanup_heap (w : World) (ids : List String) (termErr : Bool) :
    (Cleanup w ids termErr).world.heap = (stopAll w ids).world.heap := by
  unfold Cleanup
  simp only
  split
  · rfl
  · cases termErr <;> rfl

theorem closesMono_cleanup (w : World) (ids : List String) (termErr : Bool) :
    ClosesMono w (Cleanup w ids termErr).world :=
  closesMono_trans (closesMono_stopAll w _)
    (closesMono_of_heap_eq (cleanup_heap w ids termErr))

theorem closesMono_callback (w : World) (r : Nat) (input : List Int) :
    ClosesMono w (processAudio w r input) := by
  unfold processAudio
  cases hh : w.heap[r]? with
  | none => exact closesMono_refl w
  | some rec =>
    exact closesMono_set { rec with buffer := rec.buffer ++ input } hh (Nat.le_refl _) rfl

theorem closesMono_finalize (Dir : String → String) {w : World} {r : Nat}
    {rec : Recording} (x : FinalizeExt) (hh : w.heap[r]? = some rec) :
    ClosesMono w (finalize Dir w r x).world := by
  obtain ⟨f, l, hw, _⟩ := finalize_world Dir x hh
  rw [hw]
  exact closesMono_set { rec with stream := .closed } hh (Nat.le_refl _) rfl

theorem closesMono_step (Dir : String → String) {w v : World} (hs : Step Dir w v) :
    ClosesMono w v := by
  cases hs with
  | start sid path x => exact closesMono_start Dir w sid path x
  | stop sid => exact closesMono_stop w sid
  | cleanup ids t _ => exact closesMono_cleanup w ids t
  | callback r rec input _ _ => exact closesMono_callback w r input
  | finalize r rec x _ hh _ => exact closesMono_finalize Dir x hh

theorem closesMono_steps (Dir : String → String) {w v : World} (hs : Steps Dir w v) :
    ClosesMono w v := by
  induction hs with
  | refl => exact closesMono_refl w
  | tail v u _ hs ih => exact closesMono_trans ih (closesMono_step Dir hs)

theorem stop_closes_one {w : World} (h : Inv w) {sid : String} {r : Nat}
    (hl : mapLookup w.recordings sid = some r) :
    ∃ rec : Recording, (StopRecording w sid).world.heap[r]? = some rec ∧ rec.stopCloses = 1 := by
  obtain ⟨_, rec, hh, hz⟩ := h.regFresh sid r (mapLookup_mem hl)
  rw [stop_world_of_lookup hl hh hz]
  exact ⟨_, heap_set_self hh, rfl⟩

theorem stop_recordings (w : World) (sid : String) :
    (StopRecording w sid).world.recordings = mapDelete w.recordings sid := by
  unfold StopRecording
  cases hl : mapLookup w.recordings sid with
  | none => simp only [mapDelete_of_lookup_none hl]
  | some r =>
    simp only [closeChan]
    split
    · rfl
    · split <;> rfl

/-! ## The claims -/

theorem reachable_world0 : Reachable exampleDir world0 :=
  Reachable.init [] [] world0 rfl

theorem reachable_world1 : Reachable exampleDir world1 :=
  Reachable.step world0 world1 reachable_world0
    (Step.start world0 "s1" "out/s1.wav" startOk)

theorem reachable_world2 : Reachable exampleDir world2 :=
  Reachable.step world1 world2 reachable_world1 (Step.stop world1 "s1")

theorem stop_keeps (w : World) (sid : String) :
    (StopRecording w sid).world.files = w.files ∧
    (StopRecording w sid).world.log = w.log ∧
    (StopRecording w sid).world.waiting = w.waiting ∧
    (StopRecording w sid).world.dirs = w.dirs := by
  unfold StopRecording
  cases hl : mapLookup w.recordings sid with
  | none => exact ⟨rfl, rfl, rfl, rfl⟩
  | some r =>
    simp only [closeChan]
    split
    · exact ⟨rfl, rfl, rfl, rfl⟩
    · split <;> exact ⟨rfl, rfl, rfl, rfl⟩

/-- C1: in every reachable state and for every session id, registered or not,
`StopRecording` returns nil. It does not run the finalize step: the files, the
log and the waiting finalize goroutines are as before the call. The finalize
step that runs later hands no error to anyone: whatever `saveWavFile` returns
(a failed write included), the goroutine ends normally. -/
theorem C1_stop_returns_nil (Dir : String → String) (w : World) (sid : String)
    (h : Reachable Dir w) :
    (StopRecording w sid).ret = .returned none ∧
    (StopRecording w sid).world.files = w.files ∧
    (StopRecording w sid).world.log = w.log ∧
    (StopRecording w sid).world.waiting = w.waiting ∧
    (∀ (r : Nat) (rec : Recording) (y : FinalizeExt),
      (StopRecording w sid).world.heap[r]? = some rec →
      (finalize Dir (StopRecording w sid).world r y).ret = .returned none) := by
  have hk := stop_keeps w sid
  refine ⟨stop_ret_of_inv (inv_reachable Dir h) sid, hk.1, hk.2.1, hk.2.2.1, ?_⟩
  intro r rec y hh
  obtain ⟨_, _, _, hr⟩ := finalize_world Dir y hh
  exact hr

theorem C1_stop_returns_nil_witness :
    Reachable exampleDir world1 ∧
    (StopRecording world1 "s1").ret = .returned none ∧
    (finalize exampleDir (StopRecording world1 "s1").world 0
      { createErr := false, writeErr := some 0 }).ret = .returned none :=
  ⟨reachable_world1,
   (C1_stop_returns_nil exampleDir world1 "s1" reachable_world1).1,
   (C1_stop_returns_nil exampleDir world1 "s1" reachable_world1).2.2.2.2 0
     { stream := .started, buffer := [], filePath := "out/s1.wav", stopCloses := 1 }
     { createErr := false, writeErr := some 0 } (by decide)⟩

/-- C2: `StopRecording` on a session id that is not registered returns nil,
leaves the whole state unchanged and performs only the lock, the lookup and the
unlock; and in every state a second `StopRecording` of the same id right after
the first returns nil and changes nothing. -/
theorem C2_stop_unregistered_noop (w : World) (sid : String) :
    (mapLookup w.recordings sid = none →
      StopRecording w sid =
        { world := w, ret := .returned none,
          effects := [.lock, .mapLookup sid, .unlock] }) ∧
    StopRecording (StopRecording w sid).world sid =
      { world := (StopRecording w sid).world, ret := .returned none,
        effects := [.lock, .mapLookup sid, .unlock] } := by
  have key : ∀ v : World, mapLookup v.recordings sid = none →
      StopRecording v sid =
        { world := v, ret := .returned none,
          effects := [.lock, .mapLookup sid, .unlock] } := by
    intro v hv
    simp only [StopRecording, hv]
  refine ⟨key w, key _ ?_⟩
  rw [stop_recordings]
  exact mapLookup_mapDelete_self _ _

theorem C2_stop_unregistered_noop_witness :
    mapLookup world2.recordings "s1" = none ∧
    StopRecording world2 "s1" =
      { world := world2, ret := .returned none,
        effects := [.lock, .mapLookup "s1", .unlock] } :=
  ⟨by decide, (C2_stop_unregistered_noop world2 "s1").1 (by decide)⟩

/-- C3: when the session id is already registered, `StartRecording` returns the
already-started error, performs only the lock, the lookup and the unlock (no
stream is opened) and leaves the whole state unchanged, so the existing
recording stays registered; and in every reachable state each session id has at
most one entry in the registry. -/
theorem C3_start_duplicate_rejected (Dir : String → String) (w : World)
    (sid path : String) (x : StartExt) (r : Nat)
    (h : mapLookup w.recordings sid = some r) :
    StartRecording Dir w sid path x =
      { world := w, ret := .returned (some (.alreadyStarted sid)),
        effects := [.lock, .mapLookup sid, .unlock] } ∧
    mapLookup (StartRecording Dir w sid path x).world.recordings sid = some r ∧
    ∀ v : World, Reachable Dir v → ∀ id, (mapKeys v.recordings).count id ≤ 1 := by
  have h1 : StartRecording Dir w sid path x =
      { world := w, ret := .returned (some (.alreadyStarted sid)),
        effects := [.lock, .mapLookup sid, .unlock] } := by
    simp only [StartRecording, h]
  refine ⟨h1, ?_, ?_⟩
  · rw [h1]
    exact h
  · intro v hv
    exact List.nodup_iff_count_le_one.mp (inv_reachable Dir hv).keysNodup

theorem C3_start_duplicate_rejected_witness :
    mapLookup world1.recordings "s1" = some 0 ∧
    StartRecording exampleDir world1 "s1" "out/s1.wav" startOk =
      { world := world1, ret := .returned (some (.alreadyStarted "s1")),
        effects := [.lock, .mapLookup "s1", .unlock] } :=
  ⟨by decide,
   (C3_start_duplicate_rejected exampleDir world1 "s1" "out/s1.wav" startOk 0 (by decide)).1⟩

/-- C4: when opening the stream or starting it fails, `StartRecording` returns
an error, the registry and the set of finalize goroutines are as before, no
goroutine is spawned, no map insert is performed, every recording whose stream
is open afterwards was already in the heap before the call with that same
content, and a stream whose start was attempted (it had been opened) is
closed. -/
theorem C4_start_failure_releases (Dir : String → String) (w : World)
    (sid path : String) (x : StartExt)
    (h : x.openErr = true ∨ x.startErr = true) :
    (∃ e, (StartRecording Dir w sid path x).ret = .returned (some e)) ∧
    (StartRecording Dir w sid path x).world.recordings = w.recordings ∧
    (StartRecording Dir w sid path x).world.waiting = w.waiting ∧
    (∀ r, Effect.spawn r ∉ (StartRecording Dir w sid path x).effects) ∧
    (∀ id r, Effect.mapInsert id r ∉ (StartRecording Dir w sid path x).effects) ∧
    (∀ (r : Nat) (rec : Recording),
      (StartRecording Dir w sid path x).world.heap[r]? = some rec →
      rec.stream.isOpen = true → w.heap[r]? = some rec) ∧
    (∀ r, Effect.streamStart r ∈ (StartRecording Dir w sid path x).effects →
      (StartRecording Dir w sid path x).effects.getLast? = some .unlock ∧
      Effect.streamClose r ∈ (StartRecording Dir w sid path x).effects) := by
  unfold StartRecording
  split
  · refine ⟨⟨_, rfl⟩, rfl, rfl, ?_, ?_, ?_, ?_⟩
    · intro r; simp
    · intro id r; simp
    · intro r rec h1 _; exact h1
    · intro r; simp
  · by_cases h1 : x.mkdirErr = true
    · rw [if_pos h1]
      refine ⟨⟨_, rfl⟩, rfl, rfl, ?_, ?_, ?_, ?_⟩
      · intro r; simp
      · intro id r; simp
      · intro r rec h1 _; exact h1
      · intro r; simp
    · by_cases h2 : x.openErr = true
      · rw [if_neg h1, if_pos h2]
        refine ⟨⟨_, rfl⟩, rfl, rfl, ?_, ?_, ?_, ?_⟩
        · intro r; simp
        · intro id r; simp
        · intro r rec h3 h4
          rcases heap_snoc_cases h3 with h5 | ⟨_, h5⟩
          · exact h5
          · rw [h5] at h4
            simp [StreamState.isOpen] at h4
        · intro r; simp
      · have h3 : x.startErr = true := by
          rcases h with h | h
          · exact absurd h h2
          · exact h
        rw [if_neg h1, if_neg h2, if_pos h3]
        refine ⟨⟨_, rfl⟩, rfl, rfl, ?_, ?_, ?_, ?_⟩
        · intro r; simp
        · intro id r; simp
        · intro r rec h3 h4
          rcases heap_snoc_cases h3 with h5 | ⟨_, h5⟩
          · exact h5
          · rw [h5] at h4
            simp [StreamState.isOpen] at h4
        · intro r hr
          simp at hr
          simp [hr]

theorem C4_start_failure_releases_witness :
    (StartRecording exampleDir world0 "s1" "out/s1.wav"
        { mkdirErr := false, openErr := false, startErr := true, mkdirCreated := [] }).ret
      = .returned (some .startFailed) ∧
    (StartRecording exampleDir world0 "s1" "out/s1.wav"
        { mkdirErr := false, openErr := false, startErr := true, mkdirCreated := [] }).world.recordings = [] ∧
    Effect.streamClose 0 ∈ (StartRecording exampleDir world0 "s1" "out/s1.wav"
        { mkdirErr := false, openErr := false, startErr := true, mkdirCreated := [] }).effects :=
  ⟨by decide,
   (C4_start_failure_releases exampleDir world0 "s1" "out/s1.wav"
      { mkdirErr := false, openErr := false, startErr := true, mkdirCreated := [] } (Or.inr rfl)).2.1,
   by decide⟩

theorem deliver_spec (blocks : List (List Int)) (w : World) (r : Nat) (rec : Recording)
    (hh : w.heap[r]? = some rec) :
    (deliver w r blocks).heap[r]?
        = some { rec with buffer := rec.buffer ++ concatBlocks blocks } ∧
    (deliver w r blocks).recordings = w.recordings ∧
    (deliver w r blocks).dirs = w.dirs ∧
    (deliver w r blocks).files = w.files := by
  induction blocks generalizing w rec with
  | nil => simpa [deliver, concatBlocks] using hh
  | cons b bs ih =>
    have hp : (processAudio w r b).heap[r]?
        = some { rec with buffer := rec.buffer ++ b } := by
      simp only [processAudio, hh]
      exact heap_set_self hh
    have h1 := ih (processAudio w r b) { rec with buffer := rec.buffer ++ b } hp
    have hk : (processAudio w r b).recordings = w.recordings ∧
        (processAudio w r b).dirs = w.dirs ∧ (processAudio w r b).files = w.files := by
      simp only [processAudio, hh, and_self]
    have hd : deliver w r (b :: bs) = deliver (processAudio w r b) r bs := rfl
    rw [hd]
    refine ⟨?_, ?_, ?_, ?_⟩
    · rw [h1.1]
      simp [concatBlocks, List.append_assoc]
    · rw [h1.2.1, hk.1]
    · rw [h1.2.2.1, hk.2.1]
    · rw [h1.2.2.2, hk.2.2]

theorem mapLookup_snoc_self {m : List (String × Nat)} {sid : String} (r : Nat)
    (h : mapLookup m sid = none) : mapLookup (m ++ [(sid, r)]) sid = some r := by
  induction m with
  | nil => simp [mapLookup]
  | cons kv m ih =>
    obtain ⟨k, v⟩ := kv
    by_cases hk : k = sid
    · simp [mapLookup, hk] at h
    · simp only [mapLookup, hk, if_false] at h
      simp only [List.cons_append, mapLookup, hk, if_false]
      exact ih h

theorem mem_mkdirAll (dirs : List String) (dir : String) : dir ∈ mkdirAll dirs dir := by
  unfold mkdirAll
  split
  · assumption
  · exact List.mem_cons_self _ _

theorem getFile_putFile (files : List (String × WavFile)) (path : String) (f : WavFile) :
    getFile (putFile files path f) path = some f := by
  simp [putFile, getFile]

theorem finalize_ok_files (Dir : String → String) {w : World} {r : Nat}
    {rec : Recording} (hh : w.heap[r]? = some rec) (hd : Dir rec.filePath ∈ w.dirs) :
    (finalize Dir w r finalizeOk).world.files =
      putFile w.files rec.filePath
        { wavHeader rec.buffer with samples := toSamples rec.buffer } := by
  have h1 := setStream_eq .stopped hh
  have hh1 : (setStream w r .stopped).heap[r]? = some { rec with stream := .stopped } := by
    rw [h1]
    exact heap_set_self hh
  have h2 := setStream_eq .closed hh1
  have hh2 : (setStream (setStream w r .stopped) r .closed).heap[r]?
      = some { rec with stream := .closed } := by
    rw [h2]
    exact heap_set_self hh1
  have hdirs : (setStream (setStream w r .stopped) r .closed).dirs = w.dirs := by
    rw [h2, h1]
  have hfiles : (setStream (setStream w r .stopped) r .closed).files = w.files := by
    rw [h2, h1]
  have hs : (saveWavFile Dir (setStream (setStream w r .stopped) r .closed) r finalizeOk)
      = { world := { (setStream (setStream w r .stopped) r .closed) with
                      files := putFile w.files rec.filePath
                        { wavHeader rec.buffer with samples := toSamples rec.buffer } }
          ret := .returned none
          effects := [.bufLock r, .fileCreate rec.filePath, .fileWrite rec.filePath,
                      .fileClose rec.filePath, .bufUnlock r] } := by
    unfold saveWavFile
    simp only [hh2, hdirs, hfiles, finalizeOk, hd, Bool.false_or, not_true_eq_false,
      decide_False, Bool.false_eq_true, if_false]
  unfold finalize
  simp only [hs]

theorem wavHeader_fields (buffer : List Int) :
    (wavHeader buffer).numSamples = buffer.length % 2 ^ 32 ∧
    (wavHeader buffer).numChannels = 1 ∧
    (wavHeader buffer).sampleRate = 44100 ∧
    (wavHeader buffer).bitsPerSample = 16 ∧
    (wavHeader buffer).blockAlign = 2 ∧
    (wavHeader buffer).dataSize = (buffer.length % 2 ^ 32 * 2) % 2 ^ 32 := by
  simp [wavHeader, wavNewWriter, toUint32, toUint16, numChannels, sampleRate, bitsPerSample]

theorem declared_of_lt (n : Nat) (h : n < 2 ^ 31) : (n % 2 ^ 32 * 2) % 2 ^ 32 / 2 = n := by
  have e32 : (2 : Nat) ^ 32 = 4294967296 := by norm_num
  have e31 : (2 : Nat) ^ 31 = 2147483648 := by norm_num
  rw [e31] at h
  rw [e32]
  omega

theorem recordAndSave_file (Dir : String → String) (w : World) (sid path : String)
    (blocks : List (List Int)) (h : mapLookup w.recordings sid = none) :
    getFile (recordAndSave Dir w sid path blocks).files path =
      some { wavHeader (concatBlocks blocks) with
             samples := toSamples (concatBlocks blocks) } := by
  have hstart : (StartRecording Dir w sid path startOk).world =
      { w with heap := w.heap ++ [{ stream := .started, buffer := [], filePath := path,
                                    stopCloses := 0 }]
               recordings := w.recordings ++ [(sid, w.heap.length)]
               waiting := w.waiting ++ [w.heap.length]
               dirs := mkdirAll w.dirs (Dir path) } := by
    simp only [StartRecording, h, startOk, Bool.false_eq_true, if_false, mapInsert,
      mapDelete_of_lookup_none h, mkdirEach, List.foldl_nil]
  have hh1 : (StartRecording Dir w sid path startOk).world.heap[w.heap.length]?
      = some { stream := .started, buffer := [], filePath := path, stopCloses := 0 } := by
    rw [hstart]
    exact List.getElem?_concat_length _ _
  obtain ⟨d1, d2, d3, d4⟩ := deliver_spec blocks _ _ _ hh1
  have hl : mapLookup
      (deliver (StartRecording Dir w sid path startOk).world w.heap.length blocks).recordings
      sid = some w.heap.length := by
    rw [d2, hstart]
    exact mapLookup_snoc_self _ h
  have hw3 := stop_world_of_lookup hl d1 rfl
  have hh3 : (StopRecording
      (deliver (StartRecording Dir w sid path startOk).world w.heap.length blocks)
      sid).world.heap[w.heap.length]?
      = some { stream := .started, buffer := [] ++ concatBlocks blocks, filePath := path,
               stopCloses := 1 } := by
    rw [hw3]
    exact heap_set_self d1
  have hk := stop_keeps
    (deliver (StartRecording Dir w sid path startOk).world w.heap.length blocks) sid
  have hd3 : Dir path ∈ (StopRecording
      (deliver (StartRecording Dir w sid path startOk).world w.heap.length blocks)
      sid).world.dirs := by
    rw [hk.2.2.2, d3, hstart]
    exact mem_mkdirAll _ _
  have hf := finalize_ok_files Dir hh3 hd3
  unfold recordAndSave
  simp only
  rw [hf, getFile_putFile]
  simp

theorem length_concatBlocks (blocks : List (List Int)) :
    (concatBlocks blocks).length = totalLength blocks := by
  induction blocks with
  | nil => rfl
  | cons b bs ih => simp [concatBlocks, totalLength, ih]

theorem totalLength_replicate_cons (n : Nat) (a : Int) (bs : List (List Int)) :
    totalLength (List.replicate n a :: bs) = n + totalLength bs := by
  simp only [totalLength, List.length_replicate]

theorem totalLength_nil : totalLength [] = 0 := rfl

theorem recordAndSave_header (Dir : String → String) (w : World) (sid path : String)
    (blocks : List (List Int)) (h : mapLookup w.recordings sid = none) (n : Nat)
    (hn : totalLength blocks = n) :
    ∃ f : WavFile,
      getFile (recordAndSave Dir w sid path blocks).files path = some f ∧
      f.samples.length = n ∧
      f.blockAlign = 2 ∧
      f.dataSize = (n % 2 ^ 32 * 2) % 2 ^ 32 := by
  obtain ⟨_, _, _, _, h5, h6⟩ := wavHeader_fields (concatBlocks blocks)
  refine ⟨_, recordAndSave_file Dir w sid path blocks h, ?_, h5, ?_⟩
  · simp only [toSamples, List.length_map, length_concatBlocks, hn]
  · rw [length_concatBlocks, hn] at h6
    exact h6

/-! ## Runs: what a recording holds when its finalize step runs -/

theorem mem_mkdirAll_of_mem {dirs : List String} {d : String} (x : String)
    (h : d ∈ dirs) : d ∈ mkdirAll dirs x := by
  unfold mkdirAll
  split
  · exact h
  · exact List.mem_cons_of_mem _ h

theorem mem_mkdirEach_of_mem (cs : List String) {dirs : List String} {d : String}
    (h : d ∈ dirs) : d ∈ mkdirEach dirs cs := by
  induction cs generalizing dirs with
  | nil => exact h
  | cons c cs ih => exact ih (mem_mkdirAll_of_mem c h)

theorem keepsData_refl (w : World) : KeepsData w w :=
  ⟨fun _ rec h => ⟨rec, h, rfl, rfl⟩, fun _ h => h⟩

theorem keepsData_trans {w v u : World} (h1 : KeepsData w v) (h2 : KeepsData v u) :
    KeepsData w u := by
  refine ⟨?_, fun d hd => h2.2 d (h1.2 d hd)⟩
  intro r rec h
  obtain ⟨rec1, h3, h4, h5⟩ := h1.1 r rec h
  obtain ⟨rec2, h6, h7, h8⟩ := h2.1 r rec1 h3
  exact ⟨rec2, h6, h7.trans h4, h8.trans h5⟩

theorem keepsData_of_eq {w v : World} (h : v.heap = w.heap)
    (hd : ∀ d, d ∈ w.dirs → d ∈ v.dirs) : KeepsData w v :=
  ⟨fun _ rec hr => ⟨rec, by rw [h]; exact hr, rfl, rfl⟩, hd⟩

theorem keepsData_snoc {w v : World} (x : Recording) (h : v.heap = w.heap ++ [x])
    (hd : ∀ d, d ∈ w.dirs → d ∈ v.dirs) : KeepsData w v :=
  ⟨fun _ rec hr => ⟨rec, by rw [h]; exact heap_snoc_old hr, rfl, rfl⟩, hd⟩

theorem keepsData_set {w v : World} {q : Nat} {old : Recording} (x : Recording)
    (hq : w.heap[q]? = some old) (hb : x.buffer = old.buffer)
    (hp : x.filePath = old.filePath) (h : v.heap = w.heap.set q x)
    (hd : ∀ d, d ∈ w.dirs → d ∈ v.dirs) : KeepsData w v := by
  refine ⟨?_, hd⟩
  intro r rec hr
  by_cases e : r = q
  · rw [e, hq] at hr
    simp only [Option.some.injEq] at hr
    refine ⟨x, ?_, ?_, ?_⟩
    · rw [h, e]
      exact heap_set_self hq
    · rw [hb, hr]
    · rw [hp, hr]
  · exact ⟨rec, by rw [h, heap_set_other e]; exact hr, rfl, rfl⟩

theorem keepsData_start (Dir : String → String) (w : World) (sid path : String)
    (x : StartExt) : KeepsData w (StartRecording Dir w sid path x).world := by
  have hd1 : ∀ d, d ∈ w.dirs → d ∈ mkdirEach w.dirs x.mkdirCreated :=
    fun d hd => mem_mkdirEach_of_mem _ hd
  have hd2 : ∀ d, d ∈ w.dirs → d ∈ mkdirAll (mkdirEach w.dirs x.mkdirCreated) (Dir path) :=
    fun d hd => mem_mkdirAll_of_mem _ (hd1 d hd)
  unfold StartRecording
  split
  · exact keepsData_refl w
  · by_cases h1 : x.mkdirErr = true
    · rw [if_pos h1]
      exact keepsData_of_eq rfl hd1
    · by_cases h2 : x.openErr = true
      · rw [if_neg h1, if_pos h2]
        exact keepsData_snoc _ rfl hd2
      · by_cases h3 : x.startErr = true
        · rw [if_neg h1, if_neg h2, if_pos h3]
          exact keepsData_snoc _ rfl hd2
        · rw [if_neg h1, if_neg h2, if_neg h3]
          exact keepsData_snoc _ rfl hd2

theorem keepsData_closeChan (w : World) (r : Nat) : KeepsData w (closeChan w r) := by
  unfold closeChan
  cases hh : w.heap[r]? with
  | none => exact keepsData_of_eq rfl (fun _ h => h)
  | some rec =>
    simp only
    split
    · exact keepsData_set { rec with stopCloses := 1 } hh rfl rfl rfl (fun _ h => h)
    · exact keepsData_set { rec with stopCloses := rec.stopCloses + 1 } hh rfl rfl rfl
        (fun _ h => h)

theorem keepsData_stop (w : World) (sid : String) :
    KeepsData w (StopRecording w sid).world := by
  unfold StopRecording
  cases hl : mapLookup w.recordings sid with
  | none => exact keepsData_refl w
  | some r =>
    have h1 : KeepsData w { w with recordings := mapDelete w.recordings sid } :=
      keepsData_of_eq rfl (fun _ h => h)
    exact keepsData_trans h1 (keepsData_closeChan _ r)

theorem keepsData_stopAll (w : World) (ids : List String) :
    KeepsData w (stopAll w ids).world := by
  induction ids generalizing w with
  | nil => exact keepsData_refl w
  | cons id ids ih =>
    have h1 := keepsData_stop w id
    unfold stopAll
    simp only
    split
    · exact h1
    · exact keepsData_trans h1 (ih _)

theorem cleanup_dirs (w : World) (ids : List String) (termErr : Bool) :
    (Cleanup w ids termErr).world.dirs = (stopAll w ids).world.dirs := by
  unfold Cleanup
  simp only
  split
  · rfl
  · cases termErr <;> rfl

theorem keepsData_cleanup (w : World) (ids : List String) (termErr : Bool) :
    KeepsData w (Cleanup w ids termErr).world :=
  keepsData_trans (keepsData_stopAll w ids)
    (keepsData_of_eq (cleanup_heap w ids termErr)
      (fun _ h => by rw [cleanup_dirs]; exact h))

theorem keepsData_finalize (Dir : String → String) {w : World} {r : Nat}
    {rec : Recording} (x : FinalizeExt) (hh : w.heap[r]? = some rec) :
    KeepsData w (finalize Dir w r x).world := by
  obtain ⟨f, l, hw, _⟩ := finalize_world Dir x hh
  rw [hw]
  exact keepsData_set { rec with stream := .closed } hh rfl rfl rfl (fun _ h => h)

theorem deliveredTo_append (r : Nat) (ds es : List (Nat × List Int)) :
    deliveredTo r (ds ++ es) = deliveredTo r ds ++ deliveredTo r es := by
  induction ds with
  | nil => rfl
  | cons d ds ih =>
    obtain ⟨q, b⟩ := d
    by_cases e : q = r
    · simp [deliveredTo, e, ih]
    · simp [deliveredTo, e, ih]

theorem run_steps (Dir : String → String) {w v : World} {ds : List (Nat × List Int)}
    (h : Run Dir w ds v) : Steps Dir w v := by
  induction h with
  | refl => exact Steps.refl w
  | start v ds sid path x _ ih => exact Steps.tail _ _ _ ih (Step.start v sid path x)
  | stop v ds sid _ ih => exact Steps.tail _ _ _ ih (Step.stop v sid)
  | cleanup v ds ids t _ hp ih => exact Steps.tail _ _ _ ih (Step.cleanup v ids t hp)
  | callback v ds r rec input _ hh ho ih =>
    exact Steps.tail _ _ _ ih (Step.callback v r rec input hh ho)
  | finalize v ds r rec x _ hr hh hc ih =>
    exact Steps.tail _ _ _ ih (Step.finalize v r rec x hr hh hc)

theorem steps_run (Dir : String → String) {w v : World} (h : Steps Dir w v) :
    ∃ ds, Run Dir w ds v := by
  induction h with
  | refl => exact ⟨[], Run.refl w⟩
  | tail v u _ hs ih =>
    obtain ⟨ds, hr⟩ := ih
    cases hs with
    | start sid path x => exact ⟨ds, Run.start _ _ _ sid path x hr⟩
    | stop sid => exact ⟨ds, Run.stop _ _ _ sid hr⟩
    | cleanup ids t hp => exact ⟨ds, Run.cleanup _ _ _ ids t hr hp⟩
    | callback r rec input hh ho => exact ⟨_, Run.callback _ _ _ r rec input hr hh ho⟩
    | finalize r rec x hw hh hc => exact ⟨ds, Run.finalize _ _ _ r rec x hr hw hh hc⟩

theorem run_buffer (Dir : String → String) {w v : World} {ds : List (Nat × List Int)}
    (h : Run Dir w ds v) :
    (∀ (r : Nat) (rec : Recording), w.heap[r]? = some rec →
      ∃ rec1 : Recording, v.heap[r]? = some rec1 ∧
        rec1.buffer = rec.buffer ++ deliveredTo r ds ∧ rec1.filePath = rec.filePath) ∧
    (∀ d, d ∈ w.dirs → d ∈ v.dirs) := by
  have compose : ∀ (v u : World) (ds : List (Nat × List Int)),
      ((∀ (r : Nat) (rec : Recording), w.heap[r]? = some rec →
        ∃ rec1 : Recording, v.heap[r]? = some rec1 ∧
          rec1.buffer = rec.buffer ++ deliveredTo r ds ∧ rec1.filePath = rec.filePath) ∧
       (∀ d, d ∈ w.dirs → d ∈ v.dirs)) →
      KeepsData v u →
      ((∀ (r : Nat) (rec : Recording), w.heap[r]? = some rec →
        ∃ rec1 : Recording, u.heap[r]? = some rec1 ∧
          rec1.buffer = rec.buffer ++ deliveredTo r ds ∧ rec1.filePath = rec.filePath) ∧
       (∀ d, d ∈ w.dirs → d ∈ u.dirs)) := by
    intro v u ds hv hk
    refine ⟨?_, fun d hd => hk.2 d (hv.2 d hd)⟩
    intro r rec hr
    obtain ⟨rec1, h1, h2, h3⟩ := hv.1 r rec hr
    obtain ⟨rec2, h4, h5, h6⟩ := hk.1 r rec1 h1
    exact ⟨rec2, h4, h5.trans h2, h6.trans h3⟩
  induction h with
  | refl => exact ⟨fun r rec hr => ⟨rec, hr, by simp [deliveredTo], rfl⟩, fun _ hd => hd⟩
  | start v ds sid path x _ ih => exact compose _ _ _ ih (keepsData_start Dir v sid path x)
  | stop v ds sid _ ih => exact compose _ _ _ ih (keepsData_stop v sid)
  | cleanup v ds ids t _ _ ih => exact compose _ _ _ ih (keepsData_cleanup v ids t)
  | finalize v ds r rec x _ _ hh _ ih => exact compose _ _ _ ih (keepsData_finalize Dir x hh)
  | callback v ds q recq input _ hh _ ih =>
    have hdirs : (processAudio v q input).dirs = v.dirs := by
      simp only [processAudio, hh]
    refine ⟨?_, fun d hd => by rw [hdirs]; exact ih.2 d hd⟩
    intro r rec hr
    obtain ⟨rec1, h1, h2, h3⟩ := ih.1 r rec hr
    have hheap : (processAudio v q input).heap
        = v.heap.set q { recq with buffer := recq.buffer ++ input } := by
      simp only [processAudio, hh]
    rw [deliveredTo_append, hheap]
    by_cases e : r = q
    · rw [e] at h1
      rw [hh] at h1
      simp only [Option.some.injEq] at h1
      refine ⟨{ recq with buffer := recq.buffer ++ input }, ?_, ?_, ?_⟩
      · rw [e]
        exact heap_set_self hh
      · rw [h1, h2, e]
        simp [deliveredTo, List.append_assoc]
      · rw [h1]
        exact h3
    · refine ⟨rec1, by rw [heap_set_other e]; exact h1, ?_, h3⟩
      rw [h2]
      have e2 : ¬ q = r := fun c => e c.symm
      simp [deliveredTo, e2]

theorem start_ok (Dir : String → String) (w : World) (sid path : String) (x : StartExt)
    (hx : (StartRecording Dir w sid path x).ret = .returned none) :
    (StartRecording Dir w sid path x).world.heap[w.heap.length]?
      = some { stream := .started, buffer := [], filePath := path, stopCloses := 0 } ∧
    Dir path ∈ (StartRecording Dir w sid path x).world.dirs ∧
    mapLookup (StartRecording Dir w sid path x).world.recordings sid = some w.heap.length := by
  unfold StartRecording at hx ⊢
  cases hl : mapLookup w.recordings sid with
  | some r =>
    rw [hl] at hx
    simp at hx
  | none =>
    rw [hl] at hx
    simp only at hx ⊢
    by_cases h1 : x.mkdirErr = true
    · rw [if_pos h1] at hx
      simp at hx
    · by_cases h2 : x.openErr = true
      · rw [if_neg h1, if_pos h2] at hx
        simp at hx
      · by_cases h3 : x.startErr = true
        · rw [if_neg h1, if_neg h2, if_pos h3] at hx
          simp at hx
        · rw [if_neg h1, if_neg h2, if_neg h3]
          refine ⟨List.getElem?_concat_length _ _, mem_mkdirAll _ _, ?_⟩
          simp only [mapInsert, mapDelete_of_lookup_none hl]
          exact mapLookup_snoc_self _ hl

theorem processAudio_stream {w : World} {r : Nat} {rec : Recording} (input : List Int)
    (hh : w.heap[r]? = some rec) :
    (processAudio w r input).heap[r]? = some { rec with buffer := rec.buffer ++ input } := by
  simp only [processAudio, hh]
  exact heap_set_self hh

theorem run_deliver (Dir : String → String) (blocks : List (List Int)) {w v : World}
    {ds : List (Nat × List Int)} {r : Nat} {rec : Recording}
    (h : Run Dir w ds v) (hh : v.heap[r]? = some rec) (ho : rec.stream.isOpen = true) :
    Run Dir w (ds ++ blocks.map (fun b => (r, b))) (deliver v r blocks) := by
  induction blocks generalizing v ds rec with
  | nil => simpa [deliver] using h
  | cons b bs ih =>
    have h1 := Run.callback w v ds r rec b h hh ho
    have h2 := ih h1 (processAudio_stream b hh) ho
    have hd : deliver v r (b :: bs) = deliver (processAudio v r b) r bs := rfl
    rw [hd]
    simpa [List.append_assoc] using h2

theorem deliveredTo_map_self (r : Nat) (blocks : List (List Int)) :
    deliveredTo r (blocks.map (fun b => (r, b))) = concatBlocks blocks := by
  induction blocks with
  | nil => rfl
  | cons b bs ih => simp [deliveredTo, concatBlocks, ih]

theorem run_record (Dir : String → String) (w : World) (sid path : String)
    (x : StartExt) (blocks : List (List Int))
    (hx : (StartRecording Dir w sid path x).ret = .returned none) :
    Run Dir (StartRecording Dir w sid path x).world
      (blocks.map (fun b => (w.heap.length, b)))
      (StopRecording (deliver (StartRecording Dir w sid path x).world w.heap.length blocks)
        sid).world := by
  obtain ⟨hh, _, _⟩ := start_ok Dir w sid path x hx
  have h1 := run_deliver Dir blocks (Run.refl (StartRecording Dir w sid path x).world) hh rfl
  rw [List.nil_append] at h1
  exact Run.stop _ _ _ sid h1

theorem delivered_length (r : Nat) (blocks : List (List Int)) (n : Nat)
    (hn : totalLength blocks = n) :
    (deliveredTo r (blocks.map (fun b => (r, b)))).length = n := by
  rw [deliveredTo_map_self, length_concatBlocks, hn]

/-- C5 (as amended): take a successful `StartRecording` and any run after it
(callbacks of the driver, the `StopRecording` of the session, steps of other
sessions). When the finalize step of the recording then runs and its file
operations succeed, the file at the recording's path is declared as 1 channel,
44100 Hz, 16 bits per sample, and its samples are, in delivery order, all the
samples the callback delivered to the recording since its start, those
delivered between `StopRecording` and finalize included, one single-value
sample per value. The sample count passed to `wav.NewWriter` is the total
length modulo 2^32, the data size the header declares is that count times the
block align 2, modulo 2^32, and so the declared number of samples is the total
length whenever that is below 2^31. -/
theorem C5_wav_contents (Dir : String → String) (w v : World) (sid path : String)
    (x : StartExt) (ds : List (Nat × List Int))
    (hx : (StartRecording Dir w sid path x).ret = .returned none)
    (hrun : Run Dir (StartRecording Dir w sid path x).world ds v) :
    ∃ f : WavFile,
      getFile (finalize Dir v w.heap.length finalizeOk).world.files path = some f ∧
      f.numChannels = 1 ∧ f.sampleRate = 44100 ∧ f.bitsPerSample = 16 ∧
      f.blockAlign = 2 ∧
      f.samples = (deliveredTo w.heap.length ds).map (fun s => [s]) ∧
      f.samples.length = (deliveredTo w.heap.length ds).length ∧
      f.numSamples = (deliveredTo w.heap.length ds).length % 2 ^ 32 ∧
      f.dataSize = ((deliveredTo w.heap.length ds).length % 2 ^ 32 * 2) % 2 ^ 32 ∧
      ((deliveredTo w.heap.length ds).length < 2 ^ 31 →
        f.declaredSamples = (deliveredTo w.heap.length ds).length) := by
  obtain ⟨hh, hd, _⟩ := start_ok Dir w sid path x hx
  obtain ⟨hbuf, hdirs⟩ := run_buffer Dir hrun
  obtain ⟨rec1, h1, h2, h3⟩ := hbuf _ _ hh
  simp only [List.nil_append] at h2
  simp only at h3
  have hf := finalize_ok_files Dir h1 (by rw [h3]; exact hdirs _ hd)
  rw [h3, h2] at hf
  obtain ⟨g1, g2, g3, g4, g5, g6⟩ := wavHeader_fields (deliveredTo w.heap.length ds)
  refine ⟨{ wavHeader (deliveredTo w.heap.length ds) with
             samples := toSamples (deliveredTo w.heap.length ds) },
    by rw [hf]; exact getFile_putFile _ _ _, g2, g3, g4, g5, rfl, ?_, g1, g6, ?_⟩
  · simp only [toSamples, List.length_map]
  · intro hlt
    simp only [WavFile.declaredSamples]
    rw [g5, g6]
    exact declared_of_lt _ hlt

theorem C5_wav_contents_witness :
    (StartRecording exampleDir world0 "s1" "out/s1.wav" startOk).ret = .returned none ∧
    Run exampleDir (StartRecording exampleDir world0 "s1" "out/s1.wav" startOk).world
      ([List.replicate 1024 0, List.replicate 1024 0, List.replicate 512 0].map
        (fun b => (world0.heap.length, b)))
      (StopRecording
        (deliver (StartRecording exampleDir world0 "s1" "out/s1.wav" startOk).world
          world0.heap.length
          [List.replicate 1024 0, List.replicate 1024 0, List.replicate 512 0])
        "s1").world ∧
    ∃ f : WavFile,
      getFile (finalize exampleDir
        (StopRecording
          (deliver (StartRecording exampleDir world0 "s1" "out/s1.wav" startOk).world
            world0.heap.length
            [List.replicate 1024 0, List.replicate 1024 0, List.replicate 512 0])
          "s1").world
        world0.heap.length finalizeOk).world.files "out/s1.wav" = some f ∧
      f.numChannels = 1 ∧ f.sampleRate = 44100 ∧ f.bitsPerSample = 16 ∧
      f.samples.length = 2560 ∧ f.numSamples = 2560 ∧ f.dataSize = 5120 ∧
      f.declaredSamples = 2560 := by
  have hx : (StartRecording exampleDir world0 "s1" "out/s1.wav" startOk).ret
      = .returned none := by decide
  have hrun := run_record exampleDir world0 "s1" "out/s1.wav" startOk
    [List.replicate 1024 0, List.replicate 1024 0, List.replicate 512 0] hx
  have ht : totalLength
      [List.replicate 1024 (0 : Int), List.replicate 1024 0, List.replicate 512 0]
      = 2560 := by
    rw [totalLength_replicate_cons, totalLength_replicate_cons, totalLength_replicate_cons,
      totalLength_nil]
  have hlen := delivered_length world0.heap.length _ 2560 ht
  obtain ⟨f, h1, h2, h3, h4, _, _, h7, h8, h9, h10⟩ :=
    C5_wav_contents exampleDir world0 _ "s1" "out/s1.wav" startOk _ hx hrun
  rw [hlen] at h7 h8 h9 h10
  refine ⟨hx, hrun, f, h1, h2, h3, h4, h7, ?_, ?_, ?_⟩
  · rw [h8]
    norm_num
  · rw [h9]
    norm_num
  · exact h10 (by norm_num)

/-- C5, counterexample. First: the callback delivers `[1]`, `StopRecording`
returns, the callback delivers `[2]` while the stream is not yet stopped, and
finalize writes the samples `[1]` and `[2]`, not only the block delivered
before the stop. Second: for one block of 2^31 samples the header declares a
data size of 0 bytes, that is 0 samples, while 2^31 samples are written. -/
theorem C5_counterexample :
    (Reachable exampleDir lateWorld ∧ AwaitingFinalize lateWorld 0 ∧
     (getFile (finalize exampleDir lateWorld 0 finalizeOk).world.files
        "out/s1.wav").map WavFile.samples = some [[1], [2]] ∧
     [[(1 : Int)], [2]] ≠ (concatBlocks [[1]]).map (fun s => [s])) ∧
    (totalLength [List.replicate 2147483648 0] = 2147483648 ∧
     ∃ f : WavFile,
       getFile (recordAndSave exampleDir world0 "s1" "out/s1.wav"
         [List.replicate 2147483648 0]).files "out/s1.wav" = some f ∧
       f.samples.length = 2147483648 ∧ f.dataSize = 0 ∧ f.declaredSamples = 0) := by
  refine ⟨⟨?_, ?_, by decide, by decide⟩, ?_⟩
  · have r1 : Reachable exampleDir (processAudio world1 0 [1]) :=
      Reachable.step _ _ reachable_world1
        (Step.callback world1 0
          { stream := .started, buffer := [], filePath := "out/s1.wav", stopCloses := 0 }
          [1] (by decide) (by decide))
    have r2 : Reachable exampleDir (StopRecording (processAudio world1 0 [1]) "s1").world :=
      Reachable.step _ _ r1 (Step.stop _ "s1")
    exact Reachable.step _ _ r2
      (Step.callback _ 0
        { stream := .started, buffer := [1], filePath := "out/s1.wav", stopCloses := 1 }
        [2] (by decide) (by decide))
  · exact ⟨by decide,
      { stream := .started, buffer := [1, 2], filePath := "out/s1.wav", stopCloses := 1 },
      by decide, by decide⟩
  · have ht : totalLength [List.replicate 2147483648 (0 : Int)] = 2147483648 := by
      rw [totalLength_replicate_cons, totalLength_nil]
    obtain ⟨f, h1, h2, h3, h4⟩ := recordAndSave_header exampleDir world0 "s1" "out/s1.wav"
      [List.replicate 2147483648 0] rfl 2147483648 ht
    have h5 : f.dataSize = 0 := by
      rw [h4]
      norm_num
    refine ⟨ht, f, h1, h2, h5, ?_⟩
    simp only [WavFile.declaredSamples]
    rw [h5, h3]

theorem stop_effects_of_lookup {w : World} {sid : String} {r : Nat}
    (hl : mapLookup w.recordings sid = some r) :
    (StopRecording w sid).effects =
      [.lock, .mapLookup sid, .mapDelete sid, .unlock, .chanClose r] := by
  simp only [StopRecording, hl]

theorem closes_one_after {w v : World} (hv : Inv v) (hm : ClosesMono w v) {r : Nat}
    {rec : Recording} (hh : w.heap[r]? = some rec) (h1 : rec.stopCloses = 1) :
    ∃ rec1 : Recording, v.heap[r]? = some rec1 ∧ rec1.stopCloses = 1 := by
  obtain ⟨rec1, h2, h3⟩ := hm r rec hh
  have h4 := hv.closesLe r rec1 h2
  exact ⟨rec1, h2, by omega⟩

/-- C6: in every reachable state no close of a closed channel has happened and
every stop channel has been closed at most once; `StopRecording` of a
registered id finds the channel open, returns nil, performs the map delete and
the unlock before the close, and leaves the channel closed exactly once, which
it remains after any further steps. -/
theorem C6_stop_channel_closed_once (Dir : String → String) (w : World)
    (h : Reachable Dir w) :
    w.panicked = false ∧
    (∀ (r : Nat) (rec : Recording), w.heap[r]? = some rec → rec.stopCloses ≤ 1) ∧
    (∀ (sid : String) (r : Nat), mapLookup w.recordings sid = some r →
      (∃ rec0 : Recording, w.heap[r]? = some rec0 ∧ rec0.stopCloses = 0) ∧
      (StopRecording w sid).ret = .returned none ∧
      (StopRecording w sid).effects =
        [.lock, .mapLookup sid, .mapDelete sid, .unlock, .chanClose r] ∧
      (∀ v : World, Steps Dir (StopRecording w sid).world v →
        v.panicked = false ∧
        ∃ rec : Recording, v.heap[r]? = some rec ∧ rec.stopCloses = 1)) := by
  have hi := inv_reachable Dir h
  refine ⟨hi.noPanic, hi.closesLe, ?_⟩
  intro sid r hl
  refine ⟨(hi.regFresh sid r (mapLookup_mem hl)).2, stop_ret_of_inv hi sid,
    stop_effects_of_lookup hl, ?_⟩
  intro v hs
  have hv := inv_steps Dir (inv_stop hi sid) hs
  obtain ⟨rec, h1, h2⟩ := stop_closes_one hi hl
  exact ⟨hv.noPanic, closes_one_after hv (closesMono_steps Dir hs) h1 h2⟩

theorem C6_stop_channel_closed_once_witness :
    Reachable exampleDir world1 ∧
    mapLookup world1.recordings "s1" = some 0 ∧
    (StopRecording world1 "s1").effects =
      [.lock, .mapLookup "s1", .mapDelete "s1", .unlock, .chanClose 0] ∧
    ∃ rec : Recording, world2.heap[0]? = some rec ∧ rec.stopCloses = 1 :=
  ⟨reachable_world1, by decide,
   ((C6_stop_channel_closed_once exampleDir world1 reachable_world1).2.2 "s1" 0
      (by decide)).2.2.1,
   (((C6_stop_channel_closed_once exampleDir world1 reachable_world1).2.2 "s1" 0
      (by decide)).2.2.2 world2 (Steps.refl world2)).2⟩

theorem mapLookup_mapDelete_ne (m : List (String × Nat)) {id k : String} (h : k ≠ id) :
    mapLookup (mapDelete m id) k = mapLookup m k := by
  induction m with
  | nil => rfl
  | cons kv m ih =>
    obtain ⟨a, v⟩ := kv
    unfold mapDelete at ih ⊢
    by_cases ha : a = id
    · have hak : ¬ a = k := fun e => h (e.symm.trans ha)
      rw [List.filter_cons_of_neg (by simp [ha])]
      simp only [mapLookup, hak, if_false]
      exact ih
    · rw [List.filter_cons_of_pos (by simp [ha])]
      by_cases hak : a = k
      · simp only [mapLookup, hak, if_true]
      · simp only [mapLookup, hak, if_false]
        exact ih

theorem stopTrace_mapDelete (m : List (String × Nat)) (id : String) (ids : List String)
    (h : id ∉ ids) : stopTrace (mapDelete m id) ids = stopTrace m ids := by
  induction ids with
  | nil => rfl
  | cons k ids ih =>
    have hk : k ≠ id := fun e => h (e ▸ List.mem_cons_self _ _)
    have hrest : id ∉ ids := fun e => h (List.mem_cons_of_mem _ e)
    simp only [stopTrace, mapLookup_mapDelete_ne m hk, ih hrest]

theorem stop_effects (w : World) (sid : String) :
    (StopRecording w sid).effects = stopTrace w.recordings [sid] := by
  unfold StopRecording
  cases hl : mapLookup w.recordings sid with
  | none => simp [stopTrace, hl]
  | some r => simp [stopTrace, hl]

theorem stopAll_spec (ids : List String) (w : World) (h : Inv w) (hn : ids.Nodup) :
    (stopAll w ids).world.recordings
        = w.recordings.filter (fun kv => decide (kv.1 ∉ ids)) ∧
    (stopAll w ids).effects = stopTrace w.recordings ids := by
  induction ids generalizing w with
  | nil => simp [stopAll, stopTrace]
  | cons id ids ih =>
    rw [List.nodup_cons] at hn
    have hret := stop_ret_of_inv h id
    obtain ⟨i1, i2⟩ := ih (StopRecording w id).world (inv_stop h id) hn.2
    rw [stop_recordings] at i1 i2
    rw [stopTrace_mapDelete _ _ _ hn.1] at i2
    simp only [stopAll, hret]
    refine ⟨?_, ?_⟩
    · rw [i1]
      unfold mapDelete
      rw [List.filter_filter]
      apply List.filter_congr
      intro kv _
      by_cases e : kv.1 = id
      · simp [e]
      · simp [e]
    · rw [i2, stop_effects]
      simp [stopTrace]

theorem stopAll_waiting (w : World) (ids : List String) :
    (stopAll w ids).world.waiting = w.waiting := by
  induction ids generalizing w with
  | nil => rfl
  | cons id ids ih =>
    have h1 := (stop_keeps w id).2.2.1
    unfold stopAll
    simp only
    split
    · exact h1
    · simp only
      rw [ih, h1]

/-- C7: in every reachable state and for every order `sessions` in which the
range loop collects the registered session ids, `Cleanup` takes the lock,
collects the ids, releases the lock and only then runs `StopRecording` for each
collected id (each one registered: its own lock, lookup, delete, unlock and
close), followed by the portaudio termination; it returns, the registry is
empty afterwards, and the stop channel of every recording registered at entry,
open before, is closed exactly once afterwards. -/
theorem C7_cleanup_stops_all (Dir : String → String) (w : World)
    (sessions : List String) (termErr : Bool)
    (h : Reachable Dir w) (hp : sessions.Perm (mapKeys w.recordings)) :
    (Cleanup w sessions termErr).ret = .returned none ∧
    (Cleanup w sessions termErr).world.panicked = false ∧
    (Cleanup w sessions termErr).world.recordings = [] ∧
    (∀ (sid : String) (r : Nat), mapLookup w.recordings sid = some r →
      (∃ rec0 : Recording, w.heap[r]? = some rec0 ∧ rec0.stopCloses = 0) ∧
      (∃ rec : Recording, (Cleanup w sessions termErr).world.heap[r]? = some rec ∧
        rec.stopCloses = 1)) ∧
    (∀ sid, sid ∈ sessions → ∃ r, mapLookup w.recordings sid = some r) ∧
    (Cleanup w sessions termErr).effects =
      [.lock, .mapKeys, .unlock] ++ stopTrace w.recordings sessions ++
        (if termErr then [.terminate, .logPrint .terminateFailed] else [.terminate]) := by
  have hi := inv_reachable Dir h
  obtain ⟨h1, h2⟩ := inv_stopAll hi sessions
  obtain ⟨l, hw, hr⟩ := cleanup_world w sessions termErr h2
  obtain ⟨k1, k2⟩ := stopAll_spec sessions w hi (hp.nodup_iff.mpr hi.keysNodup)
  have hc := inv_cleanup hi sessions termErr
  have hrec : (Cleanup w sessions termErr).world.recordings = [] := by
    rw [hw]
    simp only
    rw [k1, List.filter_eq_nil_iff]
    intro kv hkv
    have : kv.1 ∈ sessions := hp.mem_iff.mpr (List.mem_map_of_mem Prod.fst hkv)
    simp [this]
  have hwait : (Cleanup w sessions termErr).world.waiting = w.waiting := by
    rw [hw]
    exact stopAll_waiting w _
  refine ⟨hr, hc.noPanic, hrec, ?_, ?_, ?_⟩
  · intro sid r hl
    obtain ⟨g1, rec0, g2, g3⟩ := hi.regFresh sid r (mapLookup_mem hl)
    refine ⟨⟨rec0, g2, g3⟩, ?_⟩
    obtain ⟨rec, g4, _⟩ := closesMono_cleanup w sessions termErr r rec0 g2
    have g5 := hc.closesLe r rec g4
    refine ⟨rec, g4, ?_⟩
    by_contra hne
    have hz : rec.stopCloses = 0 := by omega
    obtain ⟨id, hid⟩ := hc.waitingReg r rec (by rw [hwait]; exact g1) g4 hz
    rw [hrec] at hid
    simp at hid
  · intro sid hs
    have hk : sid ∈ mapKeys w.recordings := hp.mem_iff.mp hs
    cases hl : mapLookup w.recordings sid with
    | none => exact absurd hk (mapLookup_eq_none.mp hl)
    | some r => exact ⟨r, rfl⟩
  · unfold Cleanup
    simp only [h2, k2]
    cases termErr <;> rfl

theorem C7_cleanup_stops_all_witness :
    Reachable exampleDir world1 ∧
    List.Perm ["s1"] (mapKeys world1.recordings) ∧
    (Cleanup world1 ["s1"] false).world.recordings = [] ∧
    (Cleanup world1 ["s1"] false).effects =
      [.lock, .mapKeys, .unlock, .lock, .mapLookup "s1", .mapDelete "s1", .unlock,
       .chanClose 0, .terminate] :=
  ⟨reachable_world1, List.Perm.refl _,
   (C7_cleanup_stops_all exampleDir world1 ["s1"] false reachable_world1
      (List.Perm.refl _)).2.2.1,
   by decide⟩

/-- C8, counterexample: after `StartRecording("s1", ...)` and
`StopRecording("s1")`, before the finalize goroutine has run, the stream of the
recording is open and the recording is not registered under any id. -/
theorem C8_counterexample :
    Reachable exampleDir world2 ∧
    (∃ rec : Recording, world2.heap[0]? = some rec ∧ rec.stream.isOpen = true) ∧
    ¬ Registered world2 0 := by
  refine ⟨reachable_world2,
    ⟨{ stream := .started, buffer := [], filePath := "out/s1.wav", stopCloses := 1 },
     by decide, by decide⟩, ?_⟩
  rintro ⟨id, hid⟩
  have h0 : world2.recordings = [] := by decide
  rw [h0] at hid
  simp [mapLookup] at hid

/-- C8 (as amended): in every reachable state the stream of a recording is open
if and only if the recording is registered under some session id or has been
stopped and its finalize goroutine has not run yet; a registered recording has
an open stream and an open stop channel. -/
theorem C8_stream_open_iff (Dir : String → String) (w : World) (r : Nat)
    (rec : Recording) (h : Reachable Dir w) (hh : w.heap[r]? = some rec) :
    (rec.stream.isOpen = true ↔ Registered w r ∨ AwaitingFinalize w r) ∧
    (Registered w r → rec.stream.isOpen = true ∧ rec.stopCloses = 0) := by
  have hi := inv_reachable Dir h
  have hreg : Registered w r → rec.stream.isOpen = true ∧ rec.stopCloses = 0 := by
    rintro ⟨id, hid⟩
    obtain ⟨h1, rec1, h2, h3⟩ := hi.regFresh id r (mapLookup_mem hid)
    rw [hh] at h2
    simp only [Option.some.injEq] at h2
    rw [h2]
    exact ⟨(hi.openIff r rec1 (h2 ▸ hh)).mpr h1, h3⟩
  refine ⟨⟨?_, ?_⟩, hreg⟩
  · intro ho
    have hw := (hi.openIff r rec hh).mp ho
    by_cases hz : rec.stopCloses = 0
    · obtain ⟨id, hid⟩ := hi.waitingReg r rec hw hh hz
      exact Or.inl ⟨id, mapLookup_of_mem hi.keysNodup hid⟩
    · exact Or.inr ⟨hw, rec, hh, by omega⟩
  · rintro (h1 | h1)
    · exact (hreg h1).1
    · exact (hi.openIff r rec hh).mpr h1.1

theorem C8_stream_open_iff_witness :
    Reachable exampleDir world2 ∧
    (∃ rec : Recording, world2.heap[0]? = some rec ∧
      (rec.stream.isOpen = true ↔ Registered world2 0 ∨ AwaitingFinalize world2 0)) :=
  ⟨reachable_world2, _,
   (by decide : world2.heap[0]? = some
     { stream := .started, buffer := [], filePath := "out/s1.wav", stopCloses := 1 }),
   (C8_stream_open_iff exampleDir world2 0 _ reachable_world2 (by decide)).1⟩

/-- C9, counterexample: after `StartRecording("s1", ...)` and
`StopRecording("s1")` removed `s1` from the registry, a second
`StartRecording("s1", ...)` registers a recording under `s1` again. -/
theorem C9_counterexample :
    Reachable exampleDir world1 ∧
    mapLookup world1.recordings "s1" = some 0 ∧
    mapLookup (StopRecording world1 "s1").world.recordings "s1" = none ∧
    (StartRecording exampleDir (StopRecording world1 "s1").world "s1" "out/s1.wav"
      startOk).ret = .returned none ∧
    mapLookup (StartRecording exampleDir (StopRecording world1 "s1").world "s1"
      "out/s1.wav" startOk).world.recordings "s1" = some 1 :=
  ⟨reachable_world1, by decide, by decide, by decide, by decide⟩

/-- C9 (as amended): the lifecycle is monotonic for each recording, not for
each session id: a recording that `StopRecording` removed from the registry is
not registered under any session id after any further sequence of steps, and
its stop channel stays closed. -/
theorem C9_removed_recording_stays_removed (Dir : String → String) (w v : World)
    (sid : String) (r : Nat) (h : Reachable Dir w)
    (hl : mapLookup w.recordings sid = some r)
    (hs : Steps Dir (StopRecording w sid).world v) :
    ¬ Registered v r ∧
    ∃ rec : Recording, v.heap[r]? = some rec ∧ rec.stopCloses = 1 := by
  have hi := inv_reachable Dir h
  have hv := inv_steps Dir (inv_stop hi sid) hs
  obtain ⟨rec, h1, h2⟩ := stop_closes_one hi hl
  obtain ⟨rec1, h3, h4⟩ := closes_one_after hv (closesMono_steps Dir hs) h1 h2
  refine ⟨?_, rec1, h3, h4⟩
  rintro ⟨id, hid⟩
  obtain ⟨_, rec2, h5, h6⟩ := hv.regFresh id r (mapLookup_mem hid)
  rw [h3] at h5
  simp only [Option.some.injEq] at h5
  rw [h5] at h4
  omega

theorem C9_removed_recording_stays_removed_witness :
    Reachable exampleDir world1 ∧
    mapLookup world1.recordings "s1" = some 0 ∧
    Steps exampleDir (StopRecording world1 "s1").world world3 ∧
    ¬ Registered world3 0 :=
  ⟨reachable_world1, by decide,
   Steps.tail _ world2 world3 (Steps.refl world2) (Step.start world2 "s1" "out/s1.wav" startOk),
   (C9_removed_recording_stays_removed exampleDir world1 world3 "s1" 0 reachable_world1
      (by decide)
      (Steps.tail _ world2 world3 (Steps.refl world2)
        (Step.start world2 "s1" "out/s1.wav" startOk))).1⟩

theorem saveWavFile_no_mkdir (Dir : String → String) (w : World) (r : Nat)
    (y : FinalizeExt) (d : String) :
    (saveWavFile Dir w r y).world.dirs = w.dirs ∧
    Effect.mkdirAll d ∉ (saveWavFile Dir w r y).effects := by
  unfold saveWavFile
  split
  · simp
  · split
    · simp
    · split <;> simp

theorem setStream_dirs (w : World) (r : Nat) (s : StreamState) :
    (setStream w r s).dirs = w.dirs := by
  unfold setStream
  split <;> rfl

theorem finalize_no_mkdir (Dir : String → String) (w : World) (r : Nat)
    (y : FinalizeExt) (d : String) :
    (finalize Dir w r y).world.dirs = w.dirs ∧
    Effect.mkdirAll d ∉ (finalize Dir w r y).effects := by
  obtain ⟨h1, h2⟩ := saveWavFile_no_mkdir Dir
    (setStream (setStream w r .stopped) r .closed) r y d
  rw [setStream_dirs, setStream_dirs] at h1
  unfold finalize
  simp only
  split
  · exact ⟨h1, by simp [h2]⟩
  · exact ⟨h1, by simp [h2]⟩
  · exact ⟨h1, by simp [h2]⟩

theorem finalize_missing_dir (Dir : String → String) {w : World} {r : Nat}
    {rec : Recording} (y : FinalizeExt) (hh : w.heap[r]? = some rec)
    (hd : Dir rec.filePath ∉ w.dirs) :
    (finalize Dir w r y).world.files = w.files ∧
    (finalize Dir w r y).world.log = w.log ++ [.createFailed rec.filePath] ∧
    (finalize Dir w r y).ret = .returned none := by
  have h1 := setStream_eq .stopped hh
  have hh1 : (setStream w r .stopped).heap[r]? = some { rec with stream := .stopped } := by
    rw [h1]
    exact heap_set_self hh
  have h2 := setStream_eq .closed hh1
  have hh2 : (setStream (setStream w r .stopped) r .closed).heap[r]?
      = some { rec with stream := .closed } := by
    rw [h2]
    exact heap_set_self hh1
  have hdirs : (setStream (setStream w r .stopped) r .closed).dirs = w.dirs := by
    rw [h2, h1]
  have hfiles : (setStream (setStream w r .stopped) r .closed).files = w.files := by
    rw [h2, h1]
  have hlog : (setStream (setStream w r .stopped) r .closed).log = w.log := by
    rw [h2, h1]
  have hs : saveWavFile Dir (setStream (setStream w r .stopped) r .closed) r y
      = { world := setStream (setStream w r .stopped) r .closed
          ret := .returned (some (.createFailed rec.filePath))
          effects := [.bufLock r, .fileCreate rec.filePath, .bufUnlock r] } := by
    unfold saveWavFile
    simp only [hh2, hdirs, hd, not_false_eq_true, decide_True, Bool.or_true, if_true]
  unfold finalize
  simp only [hs, hfiles, hlog, and_self]

/-- C10 (as amended): the missing parent directories of the destination are
created by `StartRecording`, right after the duplicate check and before the
stream is opened, not by finalize. When that creation fails, `StartRecording`
returns the error, registers no recording and opens no stream: the state is as
before except for the ancestor directories that `os.MkdirAll` created before
it failed, which stay. Finalize performs no directory creation and leaves the set of
directories as it is; when the parent directory of the recording's path does
not exist as finalize runs, the file is not written, the error is logged and
the goroutine ends normally. In every reachable state `StopRecording` returns
nil and the session id is not registered afterwards. -/
theorem C10_directories_created_by_start (Dir : String → String) :
    (∀ (w : World) (sid path : String) (x : StartExt),
      mapLookup w.recordings sid = none → x.mkdirErr = true →
      StartRecording Dir w sid path x =
        { world := { w with dirs := mkdirEach w.dirs x.mkdirCreated },
          ret := .returned (some (.mkdirFailed (Dir path))),
          effects := [.lock, .mapLookup sid, .mkdirAll (Dir path), .unlock] } ∧
      (∀ d, d ∈ w.dirs → d ∈ (StartRecording Dir w sid path x).world.dirs)) ∧
    (∀ (w : World) (sid path : String) (x : StartExt),
      mapLookup w.recordings sid = none → x.mkdirErr = false →
      Dir path ∈ (StartRecording Dir w sid path x).world.dirs ∧
      (StartRecording Dir w sid path x).effects.take 3 =
        [.lock, .mapLookup sid, .mkdirAll (Dir path)]) ∧
    (∀ (w : World) (r : Nat) (y : FinalizeExt) (d : String),
      (finalize Dir w r y).world.dirs = w.dirs ∧
      Effect.mkdirAll d ∉ (finalize Dir w r y).effects) ∧
    (∀ (w : World) (r : Nat) (rec : Recording) (y : FinalizeExt),
      w.heap[r]? = some rec → Dir rec.filePath ∉ w.dirs →
      (finalize Dir w r y).world.files = w.files ∧
      (finalize Dir w r y).world.log = w.log ++ [.createFailed rec.filePath] ∧
      (finalize Dir w r y).ret = .returned none) ∧
    (∀ (w : World) (sid : String), Reachable Dir w →
      (StopRecording w sid).ret = .returned none ∧
      mapLookup (StopRecording w sid).world.recordings sid = none) := by
  refine ⟨?_, ?_, ?_, ?_, ?_⟩
  · intro w sid path x hn hx
    refine ⟨by simp only [StartRecording, hn, hx, if_true], ?_⟩
    exact (keepsData_start Dir w sid path x).2
  · intro w sid path x hn hx
    unfold StartRecording
    simp only [hn, hx, Bool.false_eq_true, if_false]
    split
    · exact ⟨mem_mkdirAll _ _, rfl⟩
    · split
      · exact ⟨mem_mkdirAll _ _, rfl⟩
      · exact ⟨mem_mkdirAll _ _, rfl⟩
  · intro w r y d
    exact finalize_no_mkdir Dir w r y d
  · intro w r rec y hh hd
    exact finalize_missing_dir Dir y hh hd
  · intro w sid hw
    refine ⟨stop_ret_of_inv (inv_reachable Dir hw) sid, ?_⟩
    rw [stop_recordings]
    exact mapLookup_mapDelete_self _ _

theorem C10_directories_created_by_start_witness :
    exampleDir "out/s1.wav" ∉ worldNoDir.dirs ∧
    (finalize exampleDir worldNoDir 0 finalizeOk).world.files = worldNoDir.files ∧
    (finalize exampleDir worldNoDir 0 finalizeOk).world.log
      = worldNoDir.log ++ [.createFailed "out/s1.wav"] ∧
    (finalize exampleDir worldNoDir 0 finalizeOk).ret = .returned none ∧
    StartRecording nestedDir world0 "s1" "p1/p2/s1.wav" mkdirFailsAfterP1 =
      { world := { world0 with dirs := ["p1", "uploads"] },
        ret := .returned (some (.mkdirFailed "p1/p2")),
        effects := [.lock, .mapLookup "s1", .mkdirAll "p1/p2", .unlock] } :=
  ⟨by decide,
   ((C10_directories_created_by_start exampleDir).2.2.2.1 worldNoDir 0
      { stream := .started, buffer := [], filePath := "out/s1.wav", stopCloses := 1 }
      finalizeOk (by decide) (by decide)).1,
   ((C10_directories_created_by_start exampleDir).2.2.2.1 worldNoDir 0
      { stream := .started, buffer := [], filePath := "out/s1.wav", stopCloses := 1 }
      finalizeOk (by decide) (by decide)).2.1,
   ((C10_directories_created_by_start exampleDir).2.2.2.1 worldNoDir 0
      { stream := .started, buffer := [], filePath := "out/s1.wav", stopCloses := 1 }
      finalizeOk (by decide) (by decide)).2.2,
   ((C10_directories_created_by_start nestedDir).1 world0 "s1" "p1/p2/s1.wav"
      mkdirFailsAfterP1 (by decide) (by decide)).1⟩

/-- C10, counterexample: with the parent directory `out` of the recording's
path missing as finalize runs, finalize creates no directory and writes no
file; and a failure to create that directory happens in `StartRecording`, which
returns the error and registers nothing. -/
theorem C10_counterexample :
    (exampleDir "out/s1.wav" ∉ worldNoDir.dirs ∧
     exampleDir "out/s1.wav" ∉ (finalize exampleDir worldNoDir 0 finalizeOk).world.dirs ∧
     getFile (finalize exampleDir worldNoDir 0 finalizeOk).world.files "out/s1.wav"
       = none) ∧
    ((StartRecording exampleDir world0 "s1" "out/s1.wav" mkdirFails).ret
       = .returned (some (.mkdirFailed "out")) ∧
     (StartRecording exampleDir world0 "s1" "out/s1.wav" mkdirFails).world.recordings
       = []) :=
  ⟨⟨by decide, by decide, by decide⟩, by decide, by decide⟩

/-! ## The registry lock -/

theorem ioUnderLock_append (a b : List Effect) (held : Bool) :
    ioUnderLock held (a ++ b) = (ioUnderLock held a || ioUnderLock (heldAfter held a) b) := by
  induction a generalizing held with
  | nil => simp [ioUnderLock, heldAfter]
  | cons e es ih =>
    cases e <;> simp [ioUnderLock, heldAfter, ih, Bool.or_assoc]

theorem heldAfter_append (a b : List Effect) (held : Bool) :
    heldAfter held (a ++ b) = heldAfter (heldAfter held a) b := by
  induction a generalizing held with
  | nil => simp [heldAfter]
  | cons e es ih =>
    cases e <;> simp [heldAfter, ih]

theorem stop_lock_free (w : World) (sid : String) :
    ioUnderLock false (StopRecording w sid).effects = false ∧
    heldAfter false (StopRecording w sid).effects = false := by
  unfold StopRecording
  cases hl : mapLookup w.recordings sid with
  | none => simp [ioUnderLock, heldAfter, Effect.isIO]
  | some r => simp [ioUnderLock, heldAfter, Effect.isIO]

theorem stopAll_lock_free (w : World) (ids : List String) :
    ioUnderLock false (stopAll w ids).effects = false ∧
    heldAfter false (stopAll w ids).effects = false := by
  induction ids generalizing w with
  | nil => simp [stopAll, ioUnderLock, heldAfter]
  | cons id ids ih =>
    obtain ⟨h1, h2⟩ := stop_lock_free w id
    obtain ⟨h3, h4⟩ := ih (StopRecording w id).world
    unfold stopAll
    simp only
    split
    · exact ⟨h1, h2⟩
    · simp only [ioUnderLock_append, heldAfter_append, h1, h2, h3, h4, Bool.or_self]
      exact ⟨trivial, trivial⟩

theorem cleanup_lock_free (w : World) (sessions : List String) (termErr : Bool) :
    ioUnderLock false (Cleanup w sessions termErr).effects = false := by
  obtain ⟨h1, h2⟩ := stopAll_lock_free w sessions
  have hpre : ∀ es : List Effect, ioUnderLock false es = false →
      ioUnderLock false ([Effect.lock, Effect.mapKeys, Effect.unlock] ++ es) = false := by
    intro es hes
    simp [ioUnderLock, Effect.isIO, hes]
  unfold Cleanup
  simp only
  split
  · exact hpre _ h1
  · cases termErr
    · simp only [Bool.false_eq_true, if_false, List.append_assoc]
      apply hpre
      rw [ioUnderLock_append, h1, h2]
      simp [ioUnderLock, Effect.isIO]
    · simp only [if_true, List.append_assoc]
      apply hpre
      rw [ioUnderLock_append, h1, h2]
      simp [ioUnderLock, Effect.isIO]

theorem start_lock_held (Dir : String → String) (w : World) (sid path : String)
    (x : StartExt) (h : mapLookup w.recordings sid = none) :
    ioUnderLock false (StartRecording Dir w sid path x).effects = true := by
  unfold StartRecording
  simp only [h]
  split
  · simp [ioUnderLock, Effect.isIO]
  · split
    · simp [ioUnderLock, Effect.isIO]
    · split <;> simp [ioUnderLock, Effect.isIO]

/-- C12, counterexample: in a successful `StartRecording` the creation of the
directory and the open and the start of the stream occur between the lock of
`ar.mu` and its release, which is the last effect of the call. -/
theorem C12_counterexample :
    (StartRecording exampleDir world0 "s1" "out/s1.wav" startOk).effects =
      [.lock, .mapLookup "s1", .mkdirAll "out", .alloc 0, .streamOpen 0, .streamStart 0,
       .mapInsert "s1" 0, .spawn 0, .unlock] ∧
    ioUnderLock false
      (StartRecording exampleDir world0 "s1" "out/s1.wav" startOk).effects = true := by
  constructor <;> decide

/-- C12 (as amended): in every call of `StopRecording` and of `Cleanup` no file
system operation, no stream operation, no portaudio termination and no log
output occurs while the registry lock is held, and the lock is free when
`StopRecording` returns. `StartRecording` holds the lock from its first effect
to its last (the deferred unlock): a call for a registered id performs only the
lookup while the lock is held, and a call for an unregistered id performs the
`os.MkdirAll` and, when that succeeds, the stream open, start and close while
the lock is held. -/
theorem C12_lock_scope (Dir : String → String) :
    (∀ (w : World) (sid : String),
      ioUnderLock false (StopRecording w sid).effects = false ∧
      heldAfter false (StopRecording w sid).effects = false) ∧
    (∀ (w : World) (sessions : List String) (termErr : Bool),
      ioUnderLock false (Cleanup w sessions termErr).effects = false) ∧
    (∀ (w : World) (sid path : String) (x : StartExt),
      (StartRecording Dir w sid path x).effects.head? = some .lock ∧
      (StartRecording Dir w sid path x).effects.getLast? = some .unlock ∧
      Effect.unlock ∉ (StartRecording Dir w sid path x).effects.dropLast) ∧
    (∀ (w : World) (sid path : String) (x : StartExt) (r : Nat),
      mapLookup w.recordings sid = some r →
      ioUnderLock false (StartRecording Dir w sid path x).effects = false) ∧
    (∀ (w : World) (sid path : String) (x : StartExt),
      mapLookup w.recordings sid = none →
      Effect.mkdirAll (Dir path) ∈ (StartRecording Dir w sid path x).effects ∧
      ioUnderLock false (StartRecording Dir w sid path x).effects = true) := by
  refine ⟨stop_lock_free, cleanup_lock_free, ?_, ?_, ?_⟩
  · intro w sid path x
    unfold StartRecording
    split
    · simp
    · simp only
      split
      · simp
      · split
        · simp
        · split <;> simp
  · intro w sid path x r h
    simp [StartRecording, h, ioUnderLock, Effect.isIO]
  · intro w sid path x h
    refine ⟨?_, start_lock_held Dir w sid path x h⟩
    unfold StartRecording
    simp only [h]
    split
    · simp
    · split
      · simp
      · split <;> simp

theorem C12_lock_scope_witness :
    mapLookup world0.recordings "s1" = none ∧
    ioUnderLock false
      (StartRecording exampleDir world0 "s1" "out/s1.wav" startOk).effects = true ∧
    mapLookup world1.recordings "s1" = some 0 ∧
    ioUnderLock false
      (StartRecording exampleDir world1 "s1" "out/s1.wav" startOk).effects = false :=
  ⟨by decide,
   ((C12_lock_scope exampleDir).2.2.2.2 world0 "s1" "out/s1.wav" startOk (by decide)).2,
   by decide,
   (C12_lock_scope exampleDir).2.2.2.1 world1 "s1" "out/s1.wav" startOk 0 (by decide)⟩

/-! ## Configuration -/

theorem validateQuestion_none_iff (i : Nat) (q : QuestionData) :
    validateQuestion i q = none ↔ ValidQuestionSpec q := by
  unfold validateQuestion ValidQuestionSpec TypeSingleChoice TypeMultiChoice TypeMixed
    TypeText
  by_cases h1 : q.ID = ""
  · simp [h1]
  by_cases h2 : q.Text = ""
  · simp [h1, h2]
  have hopt : q.Options.length = 0 ↔ q.Options = [] := List.length_eq_zero
  by_cases h3 : q.QType = "single_choice"
  · simp [h1, h2, h3, hopt]
  by_cases h4 : q.QType = "multi_choice"
  · simp [h1, h2, h4, hopt]
  by_cases h5 : q.QType = "mixed"
  · simp [h1, h2, h5, hopt]
  by_cases h6 : q.QType = "text"
  · simp [h1, h2, h6]
  · simp [h1, h2, h3, h4, h5, h6]

theorem validateQuestions_none_iff (qs : List QuestionData) (i : Nat) :
    validateQuestions i qs = none ↔ ∀ q, q ∈ qs → ValidQuestionSpec q := by
  induction qs generalizing i with
  | nil => simp [validateQuestions]
  | cons q qs ih =>
    unfold validateQuestions
    cases hq : validateQuestion i q with
    | some e =>
      have hnot : ¬ ValidQuestionSpec q := by
        intro hv
        rw [(validateQuestion_none_iff i q).mpr hv] at hq
        exact Option.noConfusion hq
      simp only [List.mem_cons]
      constructor
      · intro hc
        exact Option.noConfusion hc
      · intro hall
        exact absurd (hall q (Or.inl rfl)) hnot
    | none =>
      have hv := (validateQuestion_none_iff i q).mp hq
      simp only [List.mem_cons]
      rw [ih (i + 1)]
      constructor
      · intro hall p hp
        rcases hp with hp | hp
        · rw [hp]
          exact hv
        · exact hall p hp
      · intro hall p hp
        exact hall p (Or.inr hp)

theorem validateConfig_none_iff (c : Config) :
    validateConfig c = none ↔ ValidConfigSpec c := by
  unfold validateConfig ValidConfigSpec
  by_cases h1 : c.Email.To = ""
  · simp [h1]
  by_cases h2 : c.Email.From = ""
  · simp [h1, h2]
  by_cases h3 : c.Questions = []
  · simp [h1, h2, h3]
  have h3l : ¬ c.Questions.length = 0 := fun e => h3 (List.length_eq_zero.mp e)
  simp only [h1, h2, h3l, if_false, ne_eq, not_false_eq_true, h3, true_and]
  cases hq : validateQuestions 0 c.Questions with
  | some e =>
    have hnot : ¬ ∀ q, q ∈ c.Questions → ValidQuestionSpec q := by
      intro hall
      rw [(validateQuestions_none_iff c.Questions 0).mpr hall] at hq
      exact Option.noConfusion hq
    constructor
    · intro hc
      exact Option.noConfusion hc
    · intro hv
      exact absurd hv.1 hnot
  | none =>
    have hall := (validateQuestions_none_iff c.Questions 0).mp hq
    by_cases h4 : c.SMTPHost = ""
    · simp [h4]
    by_cases h5 : c.SMTPPort = 0
    · simp [h5]
    · simp only [h4, h5, or_self, if_false, ne_eq, not_false_eq_true, and_self, and_true,
        true_iff]
      exact hall

/-- C13: `validateConfig` returns nil if and only if `Email.To` and
`Email.From` are non-empty, `Questions` is non-empty, every question has a
non-empty ID, a non-empty text and a type among `single_choice` and
`multi_choice` (with a non-empty option list), `mixed` (with a non-empty option
list and `AllowCustom`) and `text`, `SMTPHost` is non-empty and `SMTPPort` is
not 0; in every other case it returns an error. -/
theorem C13_validateConfig_nil_iff (c : Config) :
    (validateConfig c = none ↔ ValidConfigSpec c) ∧
    (¬ ValidConfigSpec c → ∃ e, validateConfig c = some e) := by
  refine ⟨validateConfig_none_iff c, ?_⟩
  intro hv
  cases hc : validateConfig c with
  | none => exact absurd ((validateConfig_none_iff c).mp hc) hv
  | some e => exact ⟨e, rfl⟩

theorem C13_validateConfig_nil_iff_witness :
    validateConfig exampleConfig = none ∧ ValidConfigSpec exampleConfig ∧
    (¬ ValidConfigSpec { exampleConfig with SMTPPort := 0 } ∧
      ∃ e, validateConfig { exampleConfig with SMTPPort := 0 } = some e) :=
  ⟨by decide,
   (C13_validateConfig_nil_iff exampleConfig).1.mp (by decide),
   fun hv => hv.2.2.2.2.2 rfl,
   (C13_validateConfig_nil_iff { exampleConfig with SMTPPort := 0 }).2
     (fun hv => hv.2.2.2.2.2 rfl)⟩

/-! ## Packaging -/

theorem diskFile_putBytes_ne (files : List (String × List Nat)) {p path : String}
    (b : List Nat) (h : path ≠ p) :
    diskFile (putBytes files p b) path = diskFile files path := by
  have hp : ¬ p = path := fun e => h e.symm
  unfold putBytes
  simp only [diskFile, hp, if_false]
  induction files with
  | nil => rfl
  | cons kv fs ih =>
    obtain ⟨k, v⟩ := kv
    by_cases hk : k = p
    · have hkp : ¬ k = path := fun e => h (e.symm.trans hk)
      rw [List.filter_cons_of_neg (by simp [hk])]
      simp only [diskFile, hkp, if_false]
      exact ih
    · rw [List.filter_cons_of_pos (by simp [hk])]
      by_cases hkp : k = path
      · simp only [diskFile, hkp, if_true]
      · simp only [diskFile, hkp, if_false]
        exact ih

theorem addFileToZip_missing (Base : String → String) (d : Disk) (x : ZipExt)
    (es : List (String × List Nat)) (f : String) (h : diskFile d.files f = none) :
    ∃ e, (addFileToZip Base d x es f).2 = some e := by
  unfold addFileToZip
  split
  · exact ⟨_, rfl⟩
  · split
    · exact ⟨_, rfl⟩
    · simp only [h]
      exact ⟨_, rfl⟩

theorem addFiles_missing (Base : String → String) (d : Disk) (x : ZipExt)
    (fs : List String) (es : List (String × List Nat)) (f : String) (hf : f ∈ fs)
    (h : diskFile d.files f = none) :
    ∃ e, (addFiles Base d x es fs).2 = some e := by
  induction fs generalizing es with
  | nil => simp at hf
  | cons g gs ih =>
    unfold addFiles
    cases hg : addFileToZip Base d x es g with
    | mk es1 r =>
      cases r with
      | some e => exact ⟨e, rfl⟩
      | none =>
        simp only
        rcases List.mem_cons.mp hf with h1 | h1
        · obtain ⟨e, he⟩ := addFileToZip_missing Base d x es g (h1 ▸ h)
          rw [hg] at he
          exact Option.noConfusion he
        · exact ih es1 h1

theorem createZip_missing (Dir Base : String → String)
    (zipEncode : List (String × List Nat) → List Nat) (d : Disk) (x : ZipExt)
    (zipPath : String) (fs : List String) (f : String) (hf : f ∈ fs)
    (h : diskFile d.files f = none) (hz : f ≠ zipPath) :
    ∃ e, (CreateZipArchive Dir Base zipEncode d x zipPath fs).2 = some e := by
  unfold CreateZipArchive
  simp only
  split
  · exact ⟨_, rfl⟩
  · split
    · exact ⟨_, rfl⟩
    · apply addFiles_missing Base _ x fs [] f hf
      simp only
      rw [diskFile_putBytes_ne _ _ hz]
      exact h

/-- C11: what the code does where the claim fails. For every session whose
`AudioFilePath` is set while no regular file exists at that path (and the path
is not the path of the archive itself), `CreateZipArchive` on the CSV file and
the audio path returns an error, and `SendResults` returns an error and mails
nothing, whatever else succeeds. -/
theorem C11_missing_audio_fails (Dir Base : String → String)
    (Join : String → String → String)
    (zipEncode : List (String × List Nat) → List Nat)
    (responsesDir : String) (d : Disk) (zx : ZipExt) (mx : MailExt) (s : Session)
    (hset : s.AudioFilePath ≠ "")
    (hmiss : diskFile d.files s.AudioFilePath = none)
    (hzip : s.AudioFilePath ≠ Join "uploads" ("results_" ++ s.ID ++ ".zip")) :
    (∀ csvPath : String, ∃ e,
      (CreateZipArchive Dir Base zipEncode d zx
        (Join "uploads" ("results_" ++ s.ID ++ ".zip"))
        [csvPath, s.AudioFilePath]).2 = some e) ∧
    (∃ e, (SendResults Dir Base Join zipEncode responsesDir d zx mx s).ret
      = .returned (some e)) ∧
    (SendResults Dir Base Join zipEncode responsesDir d zx mx s).mailed = none := by
  have hz : ∀ csvPath : String, ∃ e,
      (CreateZipArchive Dir Base zipEncode d zx
        (Join "uploads" ("results_" ++ s.ID ++ ".zip"))
        [csvPath, s.AudioFilePath]).2 = some e := by
    intro csvPath
    exact createZip_missing Dir Base zipEncode d zx _ _ s.AudioFilePath
      (List.mem_cons_of_mem _ (List.mem_singleton_self _)) hmiss hzip
  refine ⟨hz, ?_⟩
  unfold SendResults
  cases hg : GetResponseFile Join responsesDir d zx s.ID with
  | none => exact ⟨⟨_, rfl⟩, rfl⟩
  | some csvPath =>
    obtain ⟨e, he⟩ := hz csvPath
    simp only [hset, ne_eq, not_false_eq_true, if_true, he]
    exact ⟨⟨_, rfl⟩, trivial⟩

theorem C11_missing_audio_fails_witness :
    sessionNoAudio.AudioFilePath ≠ "" ∧
    diskFile diskNoAudio.files sessionNoAudio.AudioFilePath = none ∧
    GetResponseFile exampleJoin "uploads/responses" diskNoAudio zipOk sessionNoAudio.ID
      = some "uploads/responses/responses_3f2b8c1e.csv" ∧
    (SendResults exampleDir exampleBase exampleJoin exampleZip "uploads/responses"
      diskNoAudio zipOk mailOk sessionNoAudio).ret
      = .returned (some (.archive (.statFailed "uploads/audio_3f2b8c1e.wav"))) ∧
    (SendResults exampleDir exampleBase exampleJoin exampleZip "uploads/responses"
      diskNoAudio zipOk mailOk sessionNoAudio).mailed = none ∧
    (SendResults exampleDir exampleBase exampleJoin exampleZip "uploads/responses"
      diskNoAudio zipOk mailOk { sessionNoAudio with AudioFilePath := "" })
      = { disk :=
            { dirs := ["uploads", "uploads/responses"]
              files := [("uploads/results_3f2b8c1e.zip", [113, 49, 44, 97]),
                        ("uploads/responses/responses_3f2b8c1e.csv", [113, 49, 44, 97])] }
          ret := .returned none
          mailed := some "uploads/results_3f2b8c1e.zip" } :=
  ⟨by decide, by decide, by decide, by decide,
   (C11_missing_audio_fails exampleDir exampleBase exampleJoin exampleZip
      "uploads/responses" diskNoAudio zipOk mailOk sessionNoAudio
      (by decide) (by decide) (by decide)).2.2,
   by decide⟩

end SimpleSurvey
